import Mathlib

/-!
Verification development for the lightoladb in-memory columnar SQL engine.

The C++ sources are shallowly embedded: `std::string` becomes `List Char`,
machine integers become `Nat`/`Int` with explicit `% 2^w` where wrap-around
matters, throwing functions become `Except DBError`, and the mutable table
registry becomes explicit state passing.  Field payloads of floating kinds
are modelled as exact rationals (`Rat`); none of the verified properties
depends on IEEE rounding.
-/

set_option autoImplicit false

namespace LightOlaDB

/-- Model of `std::string`: a sequence of characters. -/
abbrev Name := List Char

/-- The `DataTypeID` enumeration from `common/types.h`. -/
inductive DataTypeID where
  | Null
  | Int8
  | Int16
  | Int32
  | Int64
  | UInt8
  | UInt16
  | UInt32
  | UInt64
  | Float32
  | Float64
  | String
  | Date
  | DateTime
  | Array
  | Nullable
  deriving DecidableEq, Repr

/-- The `IDataType` descriptor hierarchy from `common/data_types.h`:
the eleven concrete scalar descriptors plus the `DataTypeNullable`
wrapper holding its nested descriptor. -/
inductive DataType where
  | int8
  | int16
  | int32
  | int64
  | uint8
  | uint16
  | uint32
  | uint64
  | float32
  | float64
  | string
  | nullable (nested : DataType)
  deriving DecidableEq, Repr

/-- `IDataType::getTypeId` as implemented by each descriptor class. -/
def DataType.getTypeId : DataType → DataTypeID
  | .int8 => .Int8
  | .int16 => .Int16
  | .int32 => .Int32
  | .int64 => .Int64
  | .uint8 => .UInt8
  | .uint16 => .UInt16
  | .uint32 => .UInt32
  | .uint64 => .UInt64
  | .float32 => .Float32
  | .float64 => .Float64
  | .string => .String
  | .nullable _ => .Nullable

/-- `IDataType::getName` as implemented by each descriptor class;
`DataTypeNullable::getName` renders `Nullable(<nested>)`. -/
def DataType.getName : DataType → Name
  | .int8 => "Int8".data
  | .int16 => "Int16".data
  | .int32 => "Int32".data
  | .int64 => "Int64".data
  | .uint8 => "UInt8".data
  | .uint16 => "UInt16".data
  | .uint32 => "UInt32".data
  | .uint64 => "UInt64".data
  | .float32 => "Float32".data
  | .float64 => "Float64".data
  | .string => "String".data
  | .nullable t => "Nullable(".data ++ t.getName ++ [')']

/-- A `Field` as observed through `IColumn::operator[]`: null, an
integer-kind payload (the mathematical value of the stored machine
integer), a float-kind payload (exact-rational abstraction of the stored
IEEE value), or a string payload. -/
inductive Cell where
  | null
  | intC (v : Int)
  | ratC (q : Rat)
  | strC (s : Name)
  deriving DecidableEq, Repr

/-- `Field::isNull`. -/
def Cell.isNull : Cell → Bool
  | .null => true
  | _ => false

/-- The error conditions raised (as `std::runtime_error` / returned error
`QueryResult`s) across the embedded core, tagged structurally. -/
inductive DBError where
  | tableNotFound (name : Name)
  | columnNotFoundInTable (name : Name)
  | columnNotFoundInBlock (name : Name)
  | columnNotFoundInStructure (name : Name)
  | unknownType (name : Name)
  | unsupportedDataTypeForColumn (name : Name)
  | unsupportedAggregateOnString
  | unsupportedDataTypeForAggregate
  | unsupportedAggregateFunction
  | noValuesToInsert
  | valuesCountMismatch
  | valueConversionError (value : Name) (column : Name)
  | schemaMismatch
  | noDataMin
  | noDataMax
  | noNonNullValuesMin
  | noNonNullValuesMax
  | wrongKind
  | truncatedData
  | columnDoesNotExist (name : Name)
  | ubEmptySchema
  | ubIndexOutOfRange
  deriving DecidableEq, Repr

instance instDecEqExcept {ε α : Type} [DecidableEq ε] [DecidableEq α] :
    DecidableEq (Except ε α) := fun a b =>
  match a, b with
  | .ok x, .ok y =>
    if h : x = y then isTrue (by rw [h])
    else isFalse (by intro hh; cases hh; exact h rfl)
  | .ok _, .error _ => isFalse (by intro h; cases h)
  | .error _, .ok _ => isFalse (by intro h; cases h)
  | .error x, .error y =>
    if h : x = y then isTrue (by rw [h])
    else isFalse (by intro hh; cases hh; exact h rfl)

/-- `unordered_map<string,size_t>::operator[] = v`: insert or overwrite
the binding for key `k`. -/
def mapInsert (m : List (Name × Nat)) (k : Name) (v : Nat) : List (Name × Nat) :=
  match m with
  | [] => [(k, v)]
  | (k', v') :: rest => if k' = k then (k, v) :: rest else (k', v') :: mapInsert rest k v

/-- `unordered_map<string,size_t>::find`. -/
def mapFind (m : List (Name × Nat)) (k : Name) : Option Nat :=
  match m with
  | [] => none
  | (k', v') :: rest => if k' = k then some v' else mapFind rest k

/-- A concrete `IColumn`: its `IDataType` (as returned by `getDataType`)
and the sequence of cells observable through `operator[]`. -/
structure IColumn where
  type : DataType
  cells : List Cell
  deriving DecidableEq, Repr

/-- `IColumn::size`. -/
def IColumn.size (c : IColumn) : Nat := c.cells.length

/-- `ColumnWithName` from `core/block.h`. -/
structure ColumnWithName where
  name : Name
  column : IColumn
  deriving DecidableEq, Repr

/-- `Block` from `core/block.h`: the ordered column list together with the
`column_indices` name-to-index lookup map. -/
structure Block where
  columns : List ColumnWithName
  column_indices : List (Name × Nat)
  deriving DecidableEq, Repr

/-- The default-constructed empty block. -/
def Block.empty : Block := ⟨[], []⟩

/-- `Block::addColumn`: records `columns.size()` in the lookup map (insert
or overwrite), then appends the named column to the ordered list. -/
def Block.addColumn (b : Block) (name : Name) (column : IColumn) : Block :=
  { columns := b.columns ++ [⟨name, column⟩],
    column_indices := mapInsert b.column_indices name b.columns.length }

/-- `Block::getColumnCount`. -/
def Block.getColumnCount (b : Block) : Nat := b.columns.length

/-- `Block::getColumnIndex`: lookup-map search, throwing when absent. -/
def Block.getColumnIndex (b : Block) (name : Name) : Except DBError Nat :=
  match mapFind b.column_indices name with
  | none => .error (.columnNotFoundInBlock name)
  | some i => .ok i

/-- `Block::getColumnByName`: `columns[getColumnIndex(name)]`.  An index
beyond the column list (impossible for blocks built by `addColumn`) is
undefined behaviour in C++, modelled as a dedicated error. -/
def Block.getColumnByName (b : Block) (name : Name) : Except DBError ColumnWithName := do
  let i ← b.getColumnIndex name
  match b.columns.get? i with
  | some c => .ok c
  | none => .error .ubIndexOutOfRange

/-- `Block::getColumnByIndex`: unchecked `columns[idx]`, observable only
in bounds. -/
def Block.getColumnByIndex (b : Block) (idx : Nat) : Option ColumnWithName :=
  b.columns.get? idx

/-- `Block::getRowCount`: 0 for an empty block, else the first column's size. -/
def Block.getRowCount (b : Block) : Nat :=
  match b.columns with
  | [] => 0
  | c :: _ => c.column.size

/-- The ordered list of column names of a block. -/
def Block.columnNames (b : Block) : List Name := b.columns.map (·.name)

/-- `ColumnDefinition` from `storage/table.h`. -/
structure ColumnDefinition where
  name : Name
  type : DataType
  deriving DecidableEq, Repr

/-- `TableStructure` from `storage/table.h`. -/
structure TableStructure where
  tname : Name
  columns : List ColumnDefinition
  column_indices : List (Name × Nat)
  deriving DecidableEq, Repr

/-- `TableStructure::addColumn`. -/
def TableStructure.addColumn (ts : TableStructure) (name : Name) (type : DataType) :
    TableStructure :=
  { ts with
    columns := ts.columns ++ [⟨name, type⟩],
    column_indices := mapInsert ts.column_indices name ts.columns.length }

/-- A table structure built by consecutive `addColumn` calls, as
`executeCreateTable` does. -/
def TableStructure.ofColumns (tname : Name) (defs : List (Name × DataType)) : TableStructure :=
  defs.foldl (fun ts d => ts.addColumn d.1 d.2) ⟨tname, [], []⟩

/-- `TableStructure::getColumnCount`. -/
def TableStructure.getColumnCount (ts : TableStructure) : Nat := ts.columns.length

/-- `TableStructure::hasColumn`. -/
def TableStructure.hasColumn (ts : TableStructure) (name : Name) : Bool :=
  (mapFind ts.column_indices name).isSome

/-- `TableStructure::getColumnIndex`, throwing when absent. -/
def TableStructure.getColumnIndex (ts : TableStructure) (name : Name) : Except DBError Nat :=
  match mapFind ts.column_indices name with
  | none => .error (.columnNotFoundInStructure name)
  | some i => .ok i

/-- `TableStructure::getColumnByName`. -/
def TableStructure.getColumnByName (ts : TableStructure) (name : Name) :
    Except DBError ColumnDefinition := do
  let i ← ts.getColumnIndex name
  match ts.columns.get? i with
  | some c => .ok c
  | none => .error .ubIndexOutOfRange

/-- `MemoryStorage` from `storage/memory_engine.h`: the table structure and
the accumulated blocks (the mutex only serializes access and has no
functional content in a sequential model). -/
structure MemoryStorage where
  structure_ : TableStructure
  blocks : List Block
  deriving DecidableEq, Repr

/-- The per-column loop of `MemoryStorage::validateBlock`: for every block
column, a lookup of its name in the table structure (which throws if the
name is absent), the (then always true) `hasColumn` test, and type-kind
equality. -/
def validateColumns (ts : TableStructure) : List ColumnWithName → Except DBError Bool
  | [] => .ok true
  | c :: rest => do
    let table_column ← ts.getColumnByName c.name
    if ¬ ts.hasColumn c.name then
      pure false
    else if c.column.type.getTypeId ≠ table_column.type.getTypeId then
      pure false
    else
      validateColumns ts rest

/-- `MemoryStorage::validateBlock`: column-count equality, then the
per-column name/type checks. -/
def MemoryStorage.validateBlock (s : MemoryStorage) (b : Block) : Except DBError Bool :=
  if b.getColumnCount ≠ s.structure_.getColumnCount then
    .ok false
  else
    validateColumns s.structure_ b.columns

/-- `MemoryStorage::insert`: validate, then append the block. -/
def MemoryStorage.insert (s : MemoryStorage) (b : Block) : Except DBError MemoryStorage := do
  let ok ← s.validateBlock b
  if ok then
    .ok { s with blocks := s.blocks ++ [b] }
  else
    .error .schemaMismatch

/-- The per-block projection loop inside `MemoryStorage::read`: build a new
block holding the requested columns, in the requested order, sharing the
stored column objects. -/
def projectBlock (b : Block) (column_names : List Name) : Except DBError Block :=
  column_names.foldlM
    (fun nb col_name => do
      let c ← b.getColumnByName col_name
      .ok (nb.addColumn col_name c.column))
    Block.empty

/-- `MemoryStorage::read`: check that every requested name exists in the
schema, return no blocks when none are stored, else project every stored
block onto the requested columns. -/
def MemoryStorage.read (s : MemoryStorage) (column_names : List Name) :
    Except DBError (List Block) := do
  match column_names.find? (fun n => ¬ s.structure_.hasColumn n) with
  | some n => .error (.columnNotFoundInTable n)
  | none =>
    if s.blocks = [] then
      .ok []
    else
      s.blocks.mapM (fun b => projectBlock b column_names)

/-! ### Parser AST structures (`sql/parser.h`) -/

/-- `AggregateFunctionType` from `sql/parser.h`. -/
inductive AggregateFunctionType where
  | NONE
  | COUNT
  | SUM
  | AVG
  | MIN
  | MAX
  deriving DecidableEq, Repr

/-- `ColumnExpression` from `sql/parser.h` (`alias` is a Lean keyword, so
the alias field carries a trailing underscore). -/
structure ColumnExpression where
  column : Name
  alias_ : Name
  agg_type : AggregateFunctionType
  deriving DecidableEq, Repr

/-- `SelectAST` from `sql/parser.h`; `where_expr`, `group_by_columns` and
`order_by_columns` are captured by the parser but, as the theorems below
establish, never read by the executor. -/
structure SelectAST where
  select_all : Bool
  columns : List ColumnExpression
  table_name : Name
  where_expr : Name
  group_by_columns : List Name
  order_by_columns : List (Name × Bool)
  limit : Nat
  deriving DecidableEq, Repr

/-- `InsertAST` from `sql/parser.h`. -/
structure InsertAST where
  table_name : Name
  column_names : List Name
  values : List (List Name)
  deriving DecidableEq, Repr

/-- `QueryResult` from `sql/executor.h`, tagged structurally: an error, a
message-only success (INSERT reports its row count), or a data success. -/
inductive QueryResult where
  | err (e : DBError)
  | okMsg (rows_inserted : Nat)
  | okRows (blocks : List Block) (column_names : List Name)
  deriving DecidableEq, Repr

/-- `QueryResult::rowCount`: sum of the result blocks' row counts. -/
def QueryResult.rowCount : QueryResult → Nat
  | .okRows blocks _ => blocks.foldl (fun k b => k + b.getRowCount) 0
  | _ => 0

/-- The executor's table registry `tables_`
(`unordered_map<string, shared_ptr<IStorage>>`), as an association list. -/
abbrev Tables := List (Name × MemoryStorage)

/-- `tables_.find(name)`. -/
def lookupTable : Tables → Name → Option MemoryStorage
  | [], _ => none
  | (k, s) :: rest, n => if k = n then some s else lookupTable rest n

/-- Mutation of the storage object a registry entry points to (through the
shared pointer): replace the binding for `n`. -/
def updateTable : Tables → Name → MemoryStorage → Tables
  | [], _, _ => []
  | (k, s) :: rest, n, s' => if k = n then (k, s') :: rest else (k, s) :: updateTable rest n s'

/-! ### Textual value conversion (`executeInsert` fill loop) -/

/-- `std::isspace` on the default locale. -/
def isSpaceCh (c : Char) : Bool :=
  c = ' ' || c = '\t' || c = '\n' || c = '\x0b' || c = '\x0c' || c = '\x0d'

/-- Digit characters and their values. -/
def isDigitCh (c : Char) : Bool := '0' ≤ c && c ≤ '9'

def takeDigits (s : Name) : List Nat :=
  (s.takeWhile isDigitCh).map (fun c => c.toNat - 48)

def digitsVal (ds : List Nat) : Nat := ds.foldl (fun a d => 10 * a + d) 0

/-- Optional leading sign. -/
def splitSign : Name → Bool × Name
  | '-' :: rest => (true, rest)
  | '+' :: rest => (false, rest)
  | s => (false, s)

/-- Modelled from the `strtol`/`strtoul` core shared by the `std::stoi`
family: skip leading whitespace, read an optional sign and a nonempty run
of decimal digits, ignore trailing characters; no digits means
`invalid_argument`.  Returns the sign and the digit magnitude. -/
def parseDecimal (s : Name) : Option (Bool × Nat) :=
  let s1 := s.dropWhile isSpaceCh
  let (neg, s2) := splitSign s1
  let ds := takeDigits s2
  if ds = [] then none else some (neg, digitsVal ds)

/-- `std::stoi` (32-bit `int` range check). -/
def stoiM (s : Name) : Except Unit Int :=
  match parseDecimal s with
  | none => .error ()
  | some (neg, n) =>
    let v : Int := if neg then -(n : Int) else (n : Int)
    if v < -(2 ^ 31) ∨ 2 ^ 31 - 1 < v then .error () else .ok v

/-- `std::stoll` (64-bit range check). -/
def stollM (s : Name) : Except Unit Int :=
  match parseDecimal s with
  | none => .error ()
  | some (neg, n) =>
    let v : Int := if neg then -(n : Int) else (n : Int)
    if v < -(2 ^ 63) ∨ 2 ^ 63 - 1 < v then .error () else .ok v

/-- `std::stoul`/`std::stoull` (64-bit `unsigned long` on the target): a
leading minus negates in the result type; out-of-range only when the
magnitude exceeds the maximum. -/
def stoulM (s : Name) : Except Unit Nat :=
  match parseDecimal s with
  | none => .error ()
  | some (neg, n) =>
    if 2 ^ 64 - 1 < n then .error ()
    else .ok (if neg then (2 ^ 64 - n % 2 ^ 64) % 2 ^ 64 else n)

/-- Modelled from `std::stof`/`std::stod` on decimal input: optional
whitespace and sign, digits with optional fraction and optional exponent,
trailing characters ignored; no digits at all means `invalid_argument`.
Hexadecimal/infinity/NaN forms are not modelled and the IEEE rounding of
the parsed value is abstracted to the exact rational. -/
def parseFloatM (s : Name) : Except Unit Rat :=
  let s1 := s.dropWhile isSpaceCh
  let (neg, s2) := splitSign s1
  let ds1 := takeDigits s2
  let s3 := s2.drop ds1.length
  let (ds2, s4) :=
    match s3 with
    | '.' :: rest => (takeDigits rest, rest.drop (takeDigits rest).length)
    | _ => ([], s3)
  if ds1 = [] ∧ ds2 = [] then .error ()
  else
    let mant : Rat := (digitsVal ds1 : Rat) + (digitsVal ds2 : Rat) / (10 : Rat) ^ ds2.length
    let e : Int :=
      match s4 with
      | c :: rest =>
        if c = 'e' ∨ c = 'E' then
          let (eneg, r2) := splitSign rest
          let eds := takeDigits r2
          if eds = [] then 0
          else if eneg then -(digitsVal eds : Int) else (digitsVal eds : Int)
        else 0
      | [] => 0
    let v := mant * (10 : Rat) ^ e
    .ok (if neg then -v else v)

/-- `static_cast` to a `w`-bit unsigned integer. -/
def wrapU (w : Nat) (n : Nat) : Nat := n % 2 ^ w

/-- `static_cast` to a `w`-bit signed integer (two's-complement wrap, the
behaviour of every targeted implementation). -/
def wrapS (w : Nat) (v : Int) : Int := (v + 2 ^ (w - 1)) % 2 ^ w - 2 ^ (w - 1)

/-- Map a parse failure to the `ValueConversionError` naming the value and
the column, as `executeInsert`'s catch clause does. -/
def orConvError {α : Type} (r : Except Unit α) (value_str col_name : Name)
    (f : α → Cell) : Except DBError Cell :=
  match r with
  | .error () => .error (.valueConversionError value_str col_name)
  | .ok v => .ok (f v)

/-- The value-conversion switch inside `executeInsert`'s fill loop: per
target type kind, parse the textual value and store the converted machine
value; a non-scalar kind hits the switch default. -/
def fillValue (tid : DataTypeID) (value_str col_name : Name) : Except DBError Cell :=
  match tid with
  | .Int8 => orConvError (stoiM value_str) value_str col_name (fun v => .intC (wrapS 8 v))
  | .Int16 => orConvError (stoiM value_str) value_str col_name (fun v => .intC (wrapS 16 v))
  | .Int32 => orConvError (stoiM value_str) value_str col_name (fun v => .intC v)
  | .Int64 => orConvError (stollM value_str) value_str col_name (fun v => .intC v)
  | .UInt8 => orConvError (stoulM value_str) value_str col_name (fun v => .intC (wrapU 8 v))
  | .UInt16 => orConvError (stoulM value_str) value_str col_name (fun v => .intC (wrapU 16 v))
  | .UInt32 => orConvError (stoulM value_str) value_str col_name (fun v => .intC (wrapU 32 v))
  | .UInt64 => orConvError (stoulM value_str) value_str col_name (fun v => .intC (v : Int))
  | .Float32 => orConvError (parseFloatM value_str) value_str col_name (fun q => .ratC q)
  | .Float64 => orConvError (parseFloatM value_str) value_str col_name (fun q => .ratC q)
  | .String => .ok (.strC value_str)
  | _ => .error (.unsupportedDataTypeForColumn col_name)

/-! ### `executeInsert` -/

/-- The target-column resolution of `executeInsert`: full schema order when
no explicit list is given, else the explicit list validated column by
column. -/
def resolveInsertColumns (ts : TableStructure) (explicit : List Name) :
    Except DBError (List Name) :=
  if explicit = [] then .ok (ts.columns.map (·.name))
  else
    match explicit.find? (fun n => ¬ ts.hasColumn n) with
    | some n => .error (.columnDoesNotExist n)
    | none => .ok explicit

/-- The column-construction loop of `executeInsert`: one empty typed column
per target column; the switch handles only the eleven scalar kinds, any
other kind (e.g. `Nullable`) hits the default and aborts. -/
def makeInsertColumns (ts : TableStructure) : List Name → Except DBError (List IColumn)
  | [] => .ok []
  | n :: rest => do
    let cd ← ts.getColumnByName n
    match cd.type.getTypeId with
    | .Int8 | .Int16 | .Int32 | .Int64 | .UInt8 | .UInt16 | .UInt32 | .UInt64
    | .Float32 | .Float64 | .String =>
      let cols ← makeInsertColumns ts rest
      .ok ({ type := cd.type, cells := [] } :: cols)
    | _ => .error (.unsupportedDataTypeForColumn n)

/-- One row of `executeInsert`'s fill loop: convert each textual value per
its target column's kind and append it to that column, left to right. -/
def fillRow (ts : TableStructure) : List Name → List Name → List IColumn →
    Except DBError (List IColumn)
  | [], _, cols => .ok cols
  | _, [], cols => .ok cols
  | _ :: _, _ :: _, [] => .error .ubIndexOutOfRange
  | v :: vs, n :: ns, c :: cs => do
    let cd ← ts.getColumnByName n
    let cell ← fillValue cd.type.getTypeId v n
    let rest ← fillRow ts vs ns cs
    .ok ({ c with cells := c.cells ++ [cell] } :: rest)

/-- All rows of `executeInsert`'s fill loop. -/
def fillRows (ts : TableStructure) (col_names : List Name) :
    List (List Name) → List IColumn → Except DBError (List IColumn)
  | [], cols => .ok cols
  | row :: rows, cols => do
    let cols' ← fillRow ts row col_names cols
    fillRows ts col_names rows cols'

/-- The block `executeInsert` hands to the storage engine: the target
columns, in target order, each holding all rows of the statement. -/
def buildInsertBlock (names : List Name) (cols : List IColumn) : Block :=
  (names.zip cols).foldl (fun b p => b.addColumn p.1 p.2) Block.empty

/-- `SQLExecutor::executeInsert`, with the registry threaded explicitly:
returns the query result and the (possibly unchanged) registry. -/
def executeInsert (ast : InsertAST) (tables : Tables) : QueryResult × Tables :=
  match lookupTable tables ast.table_name with
  | none => (.err (.tableNotFound ast.table_name), tables)
  | some storage =>
    let ts := storage.structure_
    match resolveInsertColumns ts ast.column_names with
    | .error e => (.err e, tables)
    | .ok column_names =>
      if ast.values = [] then (.err .noValuesToInsert, tables)
      else if ast.values.any (fun row => row.length ≠ column_names.length) then
        (.err .valuesCountMismatch, tables)
      else
        match makeInsertColumns ts column_names with
        | .error e => (.err e, tables)
        | .ok cols0 =>
          match fillRows ts column_names ast.values cols0 with
          | .error e => (.err e, tables)
          | .ok cols =>
            match storage.insert (buildInsertBlock column_names cols) with
            | .error e => (.err e, tables)
            | .ok storage2 =>
              (.okMsg ast.values.length, updateTable tables ast.table_name storage2)

/-! ### `executeSelect` -/

/-- The requested-column resolution loop of `executeSelect`: validates the
columns of each expression, records whether any aggregate call occurs, and
substitutes the first schema column for `COUNT(*)` (reading `columns[0]`
of an empty schema is undefined behaviour, modelled as a dedicated
error). -/
def resolveExprs (ts : TableStructure) : List ColumnExpression → Bool → List Name →
    Except DBError (Bool × List Name)
  | [], hasAgg, acc => .ok (hasAgg, acc)
  | ce :: rest, hasAgg, acc =>
    if ce.agg_type ≠ .NONE then
      if ce.agg_type = .COUNT ∧ ce.column = ['*'] then
        match ts.columns.head? with
        | none => .error .ubEmptySchema
        | some cd => resolveExprs ts rest true (acc ++ [cd.name])
      else if ts.hasColumn ce.column then resolveExprs ts rest true (acc ++ [ce.column])
      else .error (.columnDoesNotExist ce.column)
    else
      if ts.hasColumn ce.column then resolveExprs ts rest hasAgg (acc ++ [ce.column])
      else .error (.columnDoesNotExist ce.column)

/-- Column resolution of `executeSelect`: all schema columns for
`SELECT *`, else the per-expression loop. -/
def resolveSelectColumns (ts : TableStructure) (ast : SelectAST) :
    Except DBError (Bool × List Name) :=
  if ast.select_all then .ok (false, ts.columns.map (·.name))
  else resolveExprs ts ast.columns false []

/-- `std::string` `operator<`: lexicographic comparison with
`char_traits<char>` (unsigned character values). -/
def nameLt : Name → Name → Bool
  | _, [] => false
  | [], _ :: _ => true
  | c :: cs, d :: ds =>
    if c.toNat < d.toNat then true
    else if d.toNat < c.toNat then false
    else nameLt cs ds

def insertName (n : Name) : List Name → List Name
  | [] => [n]
  | m :: rest => if nameLt n m then n :: m :: rest else m :: insertName n rest

def sortNames : List Name → List Name
  | [] => []
  | n :: rest => insertName n (sortNames rest)

def dedupAdjacent : List Name → List Name
  | [] => []
  | [n] => [n]
  | a :: b :: rest => if a = b then dedupAdjacent (b :: rest) else a :: dedupAdjacent (b :: rest)

/-- `std::sort` followed by `std::unique`/`erase` on the requested column
names: the sorted sequence of the distinct names.  (Any comparison sort
followed by adjacent deduplication produces this same sequence, so
insertion sort is a faithful denotation of `std::sort` here.) -/
def sortDedup (names : List Name) : List Name := dedupAdjacent (sortNames names)

/-! ### Aggregate computation -/

def cellInt : Cell → Except DBError Int
  | .intC v => .ok v
  | _ => .error .wrongKind

def cellRat : Cell → Except DBError Rat
  | .ratC q => .ok q
  | _ => .error .wrongKind

/-- The per-block skeleton shared by every `compute*` loop in
`sql/executor.cpp`: skip columnless and rowless blocks, look up the named
column (throwing when absent), then fold the per-cell step over its
entries. -/
def aggBlockStep {σ : Type} (cellStep : σ → Cell → Except DBError σ) (column_name : Name)
    (acc : σ) (b : Block) : Except DBError σ :=
  if b.getColumnCount = 0 ∨ b.getRowCount = 0 then .ok acc
  else do
    let c ← b.getColumnByName column_name
    c.column.cells.foldlM cellStep acc

/-- The loop body of `computeCount`: count non-null entries. -/
def countStep (k : Nat) (cell : Cell) : Except DBError Nat :=
  .ok (if cell.isNull then k else k + 1)

/-- `SQLExecutor::computeCount<T>`: number of non-null entries of the named
column across all blocks. -/
def computeCount (blocks : List Block) (column_name : Name) : Except DBError Nat :=
  blocks.foldlM (aggBlockStep countStep column_name) 0

/-- The loop body of `computeSum`: skip nulls, else
`sum += static_cast<ResultT>(field.get<ValueT>())`. -/
def sumStep {β : Type} (getv : Cell → Except DBError β) (add : β → β → β)
    (s : β) (cell : Cell) : Except DBError β :=
  if cell.isNull then .ok s
  else do
    let v ← getv cell
    .ok (add s v)

/-- `SQLExecutor::computeSum<ResultT,ValueT>`: `getv` stands for
`static_cast<ResultT>(field.get<ValueT>())` (a wrong-kind read throws),
`add` for the `ResultT` addition. -/
def computeSum {β : Type} (getv : Cell → Except DBError β) (add : β → β → β) (zero : β)
    (blocks : List Block) (column_name : Name) : Except DBError β :=
  blocks.foldlM (aggBlockStep (sumStep getv add) column_name) zero

/-- The loop body of `computeAvg`: float-64 running sum and non-null count. -/
def avgStep (getv : Cell → Except DBError Rat) (a : Rat × Nat) (cell : Cell) :
    Except DBError (Rat × Nat) :=
  if cell.isNull then .ok a
  else do
    let v ← getv cell
    .ok (a.1 + v, a.2 + 1)

/-- `SQLExecutor::computeAvg<double,ValueT>`: float-64 sum and non-null
count, quotient, 0 when no non-null value exists. -/
def computeAvg (getv : Cell → Except DBError Rat) (blocks : List Block) (column_name : Name) :
    Except DBError Rat := do
  let acc ← blocks.foldlM (aggBlockStep (avgStep getv) column_name) ((0 : Rat), (0 : Nat))
  .ok (if 0 < acc.2 then acc.1 / (acc.2 : Rat) else 0)

/-- The loop body shared (up to the comparison direction) by `computeMin`
and `computeMax`: skip nulls; the first non-null value seeds the extremum,
after which `lt current m` (respectively `current > max_value`) replaces
it. -/
def extremumStep {β : Type} (getv : Cell → Except DBError β) (lt : β → β → Bool)
    (f : Option β) (cell : Cell) : Except DBError (Option β) :=
  if cell.isNull then .ok f
  else do
    let current ← getv cell
    match f with
    | none => .ok (some current)
    | some m => .ok (if lt current m then some current else some m)

/-- `SQLExecutor::computeMin<ResultT,ValueT>`: scan non-null values tracking
the current minimum (`lt` is `ResultT`'s `<`); no blocks at all throws the
no-data error, a scan that finds no non-null value throws
`NoNonNullValues`. -/
def computeMin {β : Type} (getv : Cell → Except DBError β) (lt : β → β → Bool)
    (blocks : List Block) (column_name : Name) : Except DBError β := do
  if blocks = [] then
    throw .noDataMin
  let found ← blocks.foldlM (aggBlockStep (extremumStep getv lt) column_name) none
  match found with
  | none => throw .noNonNullValuesMin
  | some m => .ok m

/-- `SQLExecutor::computeMax<ResultT,ValueT>`, symmetric to `computeMin`
with the comparison `current > max_value`. -/
def computeMax {β : Type} (getv : Cell → Except DBError β) (gt : β → β → Bool)
    (blocks : List Block) (column_name : Name) : Except DBError β := do
  if blocks = [] then
    throw .noDataMax
  let found ← blocks.foldlM (aggBlockStep (extremumStep getv gt) column_name) none
  match found with
  | none => throw .noNonNullValuesMax
  | some m => .ok m

/-- `std::is_signed_v` over the kinds the type-id switch dispatches. -/
def DataTypeID.isSignedInt : DataTypeID → Bool
  | .Int8 | .Int16 | .Int32 | .Int64 => true
  | _ => false

/-- `std::is_unsigned_v` over the dispatched kinds. -/
def DataTypeID.isUnsignedInt : DataTypeID → Bool
  | .UInt8 | .UInt16 | .UInt32 | .UInt64 => true
  | _ => false

/-- `std::is_floating_point_v` over the dispatched kinds. -/
def DataTypeID.isFloat : DataTypeID → Bool
  | .Float32 | .Float64 => true
  | _ => false

/-- The result descriptor MIN/MAX build to keep the source kind. -/
def DataTypeID.scalarType : DataTypeID → Option DataType
  | .Int8 => some .int8
  | .Int16 => some .int16
  | .Int32 => some .int32
  | .Int64 => some .int64
  | .UInt8 => some .uint8
  | .UInt16 => some .uint16
  | .UInt32 => some .uint32
  | .UInt64 => some .uint64
  | .Float32 => some .float32
  | .Float64 => some .float64
  | .String => some .string
  | _ => none

/-- `getAggregateFunctionName` from `sql/executor.cpp`. -/
def aggregateFunctionName : AggregateFunctionType → Name
  | .COUNT => "COUNT".data
  | .SUM => "SUM".data
  | .AVG => "AVG".data
  | .MIN => "MIN".data
  | .MAX => "MAX".data
  | .NONE => []

/-- The output column name of an aggregate expression: the explicit alias
or the synthesized `FUNC(column)`. -/
def aggResultName (ce : ColumnExpression) : Name :=
  if ce.alias_ ≠ [] then ce.alias_
  else aggregateFunctionName ce.agg_type ++ ['('] ++ ce.column ++ [')']

/-- `SQLExecutor::computeAggregate<T>` with `T` selected by the type-id
switch of `executeSelect` (`tid`): per aggregate kind, the widening rule by
scalar category and the single-row result column.  Signed 64-bit overflow
of SUM is undefined behaviour in the source and is modelled by unbounded
integers; the defined unsigned wrap-around is modelled by reducing each
addition modulo `2^64`. -/
def computeAggregateCell (tid : DataTypeID) (ce : ColumnExpression) (blocks : List Block) :
    Except DBError (Name × IColumn) :=
  let result_name := aggResultName ce
  match ce.agg_type with
  | .COUNT => do
    let count ←
      if ce.column = ['*'] then
        .ok (blocks.foldl (fun k b => k + b.getRowCount) 0)
      else
        computeCount blocks ce.column
    .ok (result_name, { type := .uint64, cells := [.intC count] })
  | .SUM =>
    if tid.isSignedInt then do
      let sum ← computeSum cellInt (fun a b => a + b) 0 blocks ce.column
      .ok (result_name, { type := .int64, cells := [.intC sum] })
    else if tid.isUnsignedInt then do
      let sum ← computeSum cellInt (fun a b => (a + b) % 2 ^ 64) 0 blocks ce.column
      .ok (result_name, { type := .uint64, cells := [.intC sum] })
    else if tid.isFloat then do
      let sum ← computeSum cellRat (fun a b => a + b) 0 blocks ce.column
      .ok (result_name, { type := .float64, cells := [.ratC sum] })
    else .error .unsupportedDataTypeForAggregate
  | .AVG =>
    if tid.isSignedInt ∨ tid.isUnsignedInt then do
      let avg ← computeAvg (fun c => (cellInt c).map (fun v => (v : Rat))) blocks ce.column
      .ok (result_name, { type := .float64, cells := [.ratC avg] })
    else if tid.isFloat then do
      let avg ← computeAvg cellRat blocks ce.column
      .ok (result_name, { type := .float64, cells := [.ratC avg] })
    else .error .unsupportedDataTypeForAggregate
  | .MIN =>
    if tid.isSignedInt || tid.isUnsignedInt then do
      let m ← computeMin cellInt (fun a b => decide (a < b)) blocks ce.column
      match tid.scalarType with
      | some t => .ok (result_name, { type := t, cells := [.intC m] })
      | none => .error .unsupportedDataTypeForAggregate
    else if tid.isFloat then do
      let m ← computeMin cellRat (fun a b => decide (a < b)) blocks ce.column
      match tid.scalarType with
      | some t => .ok (result_name, { type := t, cells := [.ratC m] })
      | none => .error .unsupportedDataTypeForAggregate
    else .error .unsupportedDataTypeForAggregate
  | .MAX =>
    if tid.isSignedInt || tid.isUnsignedInt then do
      let m ← computeMax cellInt (fun a b => decide (b < a)) blocks ce.column
      match tid.scalarType with
      | some t => .ok (result_name, { type := t, cells := [.intC m] })
      | none => .error .unsupportedDataTypeForAggregate
    else if tid.isFloat then do
      let m ← computeMax cellRat (fun a b => decide (b < a)) blocks ce.column
      match tid.scalarType with
      | some t => .ok (result_name, { type := t, cells := [.ratC m] })
      | none => .error .unsupportedDataTypeForAggregate
    else .error .unsupportedDataTypeForAggregate
  | .NONE => .error .unsupportedAggregateFunction

/-- The aggregate-path loop of `executeSelect`: resolve each aggregate
expression's output name and scalar kind (`COUNT(*)` is always UInt64;
String admits only COUNT; kinds outside the switch are rejected), dispatch
the computation and accumulate the one-row result block and the result
names; non-aggregate expressions are skipped. -/
def buildAggBlock (ts : TableStructure) (blocks : List Block) :
    List ColumnExpression → Block → List Name → Except DBError (Block × List Name)
  | [], acc, names => .ok (acc, names)
  | ce :: rest, acc, names =>
    if ce.agg_type = .NONE then buildAggBlock ts blocks rest acc names
    else do
      let col_name := aggResultName ce
      let tid ←
        if ce.column = ['*'] ∧ ce.agg_type = .COUNT then .ok DataTypeID.UInt64
        else do
          let cd ← ts.getColumnByName ce.column
          .ok cd.type.getTypeId
      match tid with
      | .Int8 | .Int16 | .Int32 | .Int64 | .UInt8 | .UInt16 | .UInt32 | .UInt64
      | .Float32 | .Float64 => do
        let r ← computeAggregateCell tid ce blocks
        buildAggBlock ts blocks rest (acc.addColumn col_name r.2) (names ++ [col_name])
      | .String =>
        if ce.agg_type ≠ .COUNT then .error .unsupportedAggregateOnString
        else do
          let r ← computeAggregateCell tid ce blocks
          buildAggBlock ts blocks rest (acc.addColumn col_name r.2) (names ++ [col_name])
      | _ => .error .unsupportedDataTypeForAggregate

/-! ### LIMIT -/

/-- One `popBack` per iteration of the
`while (new_column->size() > remaining)` loop; the fuel bounds the
iteration count (each iteration shortens the list, so the initial length
is always enough fuel). -/
def popLoop : Nat → List Cell → Nat → List Cell
  | 0, l, _ => l
  | fuel + 1, l, remaining =>
    if remaining < l.length then popLoop fuel l.dropLast remaining else l

/-- The `while (new_column->size() > remaining) popBack()` loop on a cloned
column. -/
def popToLimit (l : List Cell) (remaining : Nat) : List Cell :=
  popLoop l.length l remaining

/-- The block-splitting branch of the LIMIT loop: rebuild the block from
clones of its columns, each popped down to the remaining quota. -/
def truncBlock (b : Block) (remaining : Nat) : Block :=
  b.columns.foldl
    (fun nb c => nb.addColumn c.name { c.column with cells := popToLimit c.column.cells remaining })
    Block.empty

/-- The LIMIT loop of `executeSelect`: keep whole blocks within the
remaining quota, split the block straddling the boundary, stop there. -/
def limitBlocks : List Block → Nat → List Block
  | [], _ => []
  | b :: rest, remaining =>
    if b.getRowCount ≤ remaining then b :: limitBlocks rest (remaining - b.getRowCount)
    else [truncBlock b remaining]

/-- Total row count of a block list. -/
def totalRows (blocks : List Block) : Nat := blocks.foldl (fun k b => k + b.getRowCount) 0

/-! ### `executeSelect` -/

/-- `SQLExecutor::executeSelect`: table lookup, column resolution,
sort-and-deduplicate the names for the storage read, then either the
aggregate path (only when at least one block was read) or the projection
path with the optional LIMIT truncation.  The parsed `WHERE`, `GROUP BY`
and `ORDER BY` fields of the AST are never consulted. -/
def executeSelect (ast : SelectAST) (tables : Tables) : QueryResult :=
  match lookupTable tables ast.table_name with
  | none => .err (.tableNotFound ast.table_name)
  | some storage =>
    let ts := storage.structure_
    match resolveSelectColumns ts ast with
    | .error e => .err e
    | .ok (has_aggregates, column_names0) =>
      let column_names := sortDedup column_names0
      match storage.read column_names with
      | .error e => .err e
      | .ok blocks =>
        if has_aggregates ∧ blocks ≠ [] then
          match buildAggBlock ts blocks ast.columns Block.empty [] with
          | .error e => .err e
          | .ok (agg_block, result_names) => .okRows [agg_block] result_names
        else
          let result_names :=
            if ast.select_all then ts.columns.map (·.name)
            else ast.columns.map (fun ce => if ce.alias_ ≠ [] then ce.alias_ else ce.column)
          let blocks2 :=
            if 0 < ast.limit ∧ blocks ≠ [] then
              if ast.limit < totalRows blocks then limitBlocks blocks ast.limit else blocks
            else blocks
          .okRows blocks2 result_names

/-! ### The type factory (`common/data_types.cpp`) -/

/-- The four ECMAScript line terminators, which `.` in `std::regex`'s
default grammar does not match. -/
def lineTerm (c : Char) : Bool :=
  c = '\n' || c = '\r' || c = ' ' || c = ' '

/-- The eleven scalar keywords and their descriptors, in the order
`createDataType` compares them. -/
def scalarKeywords : List (Name × DataType) :=
  [("Int8".data, .int8), ("Int16".data, .int16), ("Int32".data, .int32),
   ("Int64".data, .int64), ("UInt8".data, .uint8), ("UInt16".data, .uint16),
   ("UInt32".data, .uint32), ("UInt64".data, .uint64), ("Float32".data, .float32),
   ("Float64".data, .float64), ("String".data, .string)]

/-- The eleven exact-keyword comparisons heading `createDataType`. -/
def scalarKeyword (s : Name) : Option DataType :=
  (scalarKeywords.find? (fun p => p.1 == s)).map (·.2)

/-- `createDataType` over character lists: the eleven exact scalar
keywords, else the anchored ECMAScript regex `^Nullable\((.+)\)$` (whose
greedy `.+` capture is everything strictly between the fixed prefix and
the final character, provided it is nonempty and free of line
terminators), recursing on the capture; anything else is `UnknownType`. -/
def createDataTypeFuel : Nat → Name → Except DBError DataType
  | 0, s => .error (.unknownType s)
  | fuel + 1, s =>
    match scalarKeyword s with
    | some t => .ok t
    | none =>
      if 11 ≤ s.length ∧ s.take 9 = "Nullable(".data ∧ s.getLast? = some ')'
          ∧ ((s.drop 9).dropLast.all fun c => !(lineTerm c)) then
        match createDataTypeFuel fuel ((s.drop 9).dropLast) with
        | .ok t => .ok (.nullable t)
        | .error e => .error e
      else .error (.unknownType s)

/-- `createDataType`, with the recursion depth bounded by the string
length (each recursive call strips 10 characters, so `length + 1` fuel is
always sufficient, as `createDataTypeFuel_congr` below establishes). -/
def createDataTypeL (s : Name) : Except DBError DataType :=
  createDataTypeFuel (s.length + 1) s

/-- The acceptance grammar the specification states for the type factory:
the eleven scalar keywords, or `Nullable(X)` with `X` itself accepted,
paired with the descriptor the factory returns for it. -/
inductive AcceptsType : Name → DataType → Prop where
  | int8 : AcceptsType "Int8".data .int8
  | int16 : AcceptsType "Int16".data .int16
  | int32 : AcceptsType "Int32".data .int32
  | int64 : AcceptsType "Int64".data .int64
  | uint8 : AcceptsType "UInt8".data .uint8
  | uint16 : AcceptsType "UInt16".data .uint16
  | uint32 : AcceptsType "UInt32".data .uint32
  | uint64 : AcceptsType "UInt64".data .uint64
  | float32 : AcceptsType "Float32".data .float32
  | float64 : AcceptsType "Float64".data .float64
  | string : AcceptsType "String".data .string
  | nullable {x : Name} {t : DataType} :
      AcceptsType x t → AcceptsType ("Nullable(".data ++ x ++ [')']) (.nullable t)

/-! ### Binary codecs (`common/data_types.h`) -/

/-- The little-endian byte sequence `memcpy` lays down for a `w`-byte
integer on the x86-64 target. -/
def leBytes : Nat → Nat → List Nat
  | 0, _ => []
  | w + 1, v => v % 256 :: leBytes w (v / 256)

/-- Reassemble a little-endian byte sequence. -/
def leValue : List Nat → Nat
  | [] => 0
  | b :: rest => b + 256 * leValue rest

/-- `DataTypeNumber<T>::serializeBinary`: append the `sizeof(T)` raw bytes
of the value to the buffer. -/
def numberSerializeBinary (w : Nat) (v : Nat) (buffer : List Nat) : List Nat :=
  buffer ++ leBytes w v

/-- `DataTypeNumber<T>::deserializeBinary`: fail when fewer than
`sizeof(T)` bytes are supplied, else read exactly the first `sizeof(T)`
bytes. -/
def numberDeserializeBinary (w : Nat) (buffer : List Nat) : Except DBError Nat :=
  if buffer.length < w then .error .truncatedData
  else .ok (leValue (buffer.take w))

/-- `DataTypeString::serializeBinary`: append the 4-byte little-endian
`static_cast<uint32_t>(size)` length prefix, then that many bytes of the
string. -/
def stringSerializeBinary (s : List Nat) (buffer : List Nat) : List Nat :=
  buffer ++ leBytes 4 (s.length % 2 ^ 32) ++ s.take (s.length % 2 ^ 32)

/-- `DataTypeString::deserializeBinary`: fail when fewer than 4 bytes are
supplied or when the buffer is shorter than 4 plus the encoded length,
else read that many bytes after the prefix. -/
def stringDeserializeBinary (buffer : List Nat) : Except DBError (List Nat) :=
  if buffer.length < 4 then .error .truncatedData
  else
    let str_size := leValue (buffer.take 4)
    if buffer.length < 4 + str_size then .error .truncatedData
    else .ok ((buffer.drop 4).take str_size)

/-- The kinds the column-construction switch of `executeInsert` handles
(the eleven scalar kinds); everything else hits the switch default. -/
def DataTypeID.isInsertSupported : DataTypeID → Bool
  | .Int8 | .Int16 | .Int32 | .Int64 | .UInt8 | .UInt16 | .UInt32 | .UInt64
  | .Float32 | .Float64 | .String => true
  | _ => false

/-! ### Concrete fixtures used by witnesses and counterexamples -/

/-- A two-column Int32 table `t(a, b)`. -/
def tsAB : TableStructure :=
  TableStructure.ofColumns "t".data [("a".data, .int32), ("b".data, .int32)]

def colA : IColumn := ⟨.int32, [.intC 1, .intC 2]⟩

def colB : IColumn := ⟨.int32, [.intC 10, .intC 20]⟩

/-- One stored block of `t` with two rows. -/
def blkAB : Block := (Block.empty.addColumn "a".data colA).addColumn "b".data colB

def storAB : MemoryStorage := ⟨tsAB, [blkAB]⟩

def tablesAB : Tables := [("t".data, storAB)]

/-- A block carrying the schema column `a` twice and `b` not at all. -/
def blkDup : Block :=
  (Block.empty.addColumn "a".data ⟨.int32, [.intC 1]⟩).addColumn "a".data ⟨.int32, [.intC 2]⟩

/-- A table whose single column is declared `Nullable(Int32)`. -/
def tsN : TableStructure :=
  TableStructure.ofColumns "t".data [("a".data, .nullable .int32)]

def storN : MemoryStorage := ⟨tsN, []⟩

def tablesN : Tables := [("t".data, storN)]

/-- `SELECT COUNT(*) FROM t`. -/
def astCountStar : SelectAST :=
  ⟨false, [⟨['*'], [], .COUNT⟩], "t".data, [], [], [], 0⟩

/-- `SELECT MIN(a) FROM t`. -/
def astMinA : SelectAST :=
  ⟨false, [⟨"a".data, [], .MIN⟩], "t".data, [], [], [], 0⟩

/-- `SELECT b, a FROM t`. -/
def astBA : SelectAST :=
  ⟨false, [⟨"b".data, [], .NONE⟩, ⟨"a".data, [], .NONE⟩], "t".data, [], [], [], 0⟩

/-- `t` with no stored blocks. -/
def storEmptyAB : MemoryStorage := ⟨tsAB, []⟩

def tablesEmptyAB : Tables := [("t".data, storEmptyAB)]

/-- A second stored block of `t` with two more rows. -/
def blkAB2 : Block :=
  (Block.empty.addColumn "a".data ⟨.int32, [.intC 3, .intC 4]⟩).addColumn "b".data
    ⟨.int32, [.intC 30, .intC 40]⟩

def storAB2 : MemoryStorage := ⟨tsAB, [blkAB, blkAB2]⟩

def tablesAB2 : Tables := [("t".data, storAB2)]

/-- `SELECT a FROM t LIMIT 3`. -/
def astALim3 : SelectAST :=
  ⟨false, [⟨"a".data, [], .NONE⟩], "t".data, [], [], [], 3⟩

/-- The content of the `j`-th column of each block, concatenated in block
order: the row-content observable the LIMIT claim is stated over. -/
def columnSlice (bs : List Block) (j : Nat) : List Cell :=
  (bs.map (fun b =>
    match b.columns.get? j with
    | some c => c.column.cells
    | none => [])).join

/-! ## Shared lemmas -/

theorem except_bind_ok {ε α β : Type} (a : α) (f : α → Except ε β) :
    (Except.ok a >>= f : Except ε β) = f a := rfl

theorem except_bind_error {ε α β : Type} (e : ε) (f : α → Except ε β) :
    (Except.error e >>= f : Except ε β) = Except.error e := rfl

theorem mapFind_insert_self (m : List (Name × Nat)) (k : Name) (v : Nat) :
    mapFind (mapInsert m k v) k = some v := by
  induction m with
  | nil => simp [mapInsert, mapFind]
  | cons p rest ih =>
    obtain ⟨k', v'⟩ := p
    by_cases h : k' = k <;> simp [mapInsert, mapFind, h, ih]

theorem addColumn_columnNames (b : Block) (n : Name) (c : IColumn) :
    (b.addColumn n c).columnNames = b.columnNames ++ [n] := by
  simp [Block.addColumn, Block.columnNames]

theorem addColumn_getRowCount (b : Block) (n : Name) (c : IColumn) (h : b.columns ≠ []) :
    (b.addColumn n c).getRowCount = b.getRowCount := by
  cases hb : b.columns with
  | nil => exact absurd hb h
  | cons x xs => simp [Block.addColumn, Block.getRowCount, hb]

/-! ## Claim C6: WHERE / GROUP BY / ORDER BY never change the result -/

/-- C6: for every SELECT AST, replacing the captured `WHERE` text, `GROUP
BY` column list, and `ORDER BY` list (leaving the rest of the statement
unchanged) never changes the executor's result: `executeSelect` does not
consult those fields. -/
theorem select_ignores_where_group_order (ast : SelectAST) (tables : Tables)
    (w : Name) (g : List Name) (o : List (Name × Bool)) :
    executeSelect { ast with where_expr := w, group_by_columns := g, order_by_columns := o }
      tables = executeSelect ast tables := rfl

/-! ## Claim C9: duplicate-name `addColumn` rebinds only the lookup -/

/-- C9: on a block already holding a column registered under name `n` at
index `i`, `addColumn n c2` grows the ordered column list by one, leaves
every previously stored column reachable at its original index (in
particular index `i`), and rebinds the name lookup so that a subsequent
lookup of `n` returns the newly added column `c2`. -/
theorem addColumn_duplicate_rebinds_lookup (b : Block) (n : Name) (c2 : IColumn) (i : Nat)
    (hfind : b.getColumnIndex n = .ok i) (hi : i < b.getColumnCount) :
    (b.addColumn n c2).getColumnCount = b.getColumnCount + 1
    ∧ (b.addColumn n c2).getColumnByName n = .ok ⟨n, c2⟩
    ∧ (∀ j, j < b.getColumnCount → (b.addColumn n c2).getColumnByIndex j = b.getColumnByIndex j)
    ∧ (b.addColumn n c2).getColumnByIndex i = b.getColumnByIndex i := by
  refine ⟨?_, ?_, ?_, ?_⟩
  · simp [Block.addColumn, Block.getColumnCount]
  · have hidx : (b.addColumn n c2).getColumnIndex n = .ok b.columns.length := by
      simp [Block.addColumn, Block.getColumnIndex, mapFind_insert_self]
    simp only [Block.getColumnByName, hidx, except_bind_ok]
    simp [Block.addColumn, List.getElem?_concat_length]
  · intro j hj
    simp only [Block.getColumnByIndex, Block.addColumn]
    exact List.get?_append hj
  · simp only [Block.getColumnByIndex, Block.addColumn]
    exact List.get?_append hi

/-- C9 witness: the theorem applied to a concrete two-step block. -/
theorem addColumn_duplicate_witness :
    ((Block.empty.addColumn ['x'] ⟨.int32, [.intC 1]⟩).getColumnIndex ['x'] = .ok 0
     ∧ 0 < (Block.empty.addColumn ['x'] ⟨.int32, [.intC 1]⟩).getColumnCount)
    ∧ (((Block.empty.addColumn ['x'] ⟨.int32, [.intC 1]⟩).addColumn ['x']
          ⟨.int32, [.intC 2]⟩).getColumnCount
        = (Block.empty.addColumn ['x'] ⟨.int32, [.intC 1]⟩).getColumnCount + 1
      ∧ ((Block.empty.addColumn ['x'] ⟨.int32, [.intC 1]⟩).addColumn ['x']
          ⟨.int32, [.intC 2]⟩).getColumnByName ['x'] = .ok ⟨['x'], ⟨.int32, [.intC 2]⟩⟩
      ∧ (∀ j, j < (Block.empty.addColumn ['x'] ⟨.int32, [.intC 1]⟩).getColumnCount →
          ((Block.empty.addColumn ['x'] ⟨.int32, [.intC 1]⟩).addColumn ['x']
            ⟨.int32, [.intC 2]⟩).getColumnByIndex j
          = (Block.empty.addColumn ['x'] ⟨.int32, [.intC 1]⟩).getColumnByIndex j)
      ∧ ((Block.empty.addColumn ['x'] ⟨.int32, [.intC 1]⟩).addColumn ['x']
          ⟨.int32, [.intC 2]⟩).getColumnByIndex 0
        = (Block.empty.addColumn ['x'] ⟨.int32, [.intC 1]⟩).getColumnByIndex 0) :=
  ⟨⟨by decide, by decide⟩,
    addColumn_duplicate_rebinds_lookup (Block.empty.addColumn ['x'] ⟨.int32, [.intC 1]⟩)
      ['x'] ⟨.int32, [.intC 2]⟩ 0 (by decide) (by decide)⟩

/-! ## Claim C7: the type factory's acceptance grammar -/

theorem createDataTypeFuel_congr (fuel : Nat) : ∀ (fuel' : Nat) (s : Name),
    s.length < fuel → s.length < fuel' →
    createDataTypeFuel fuel s = createDataTypeFuel fuel' s := by
  induction fuel using Nat.strong_induction_on with
  | _ fuel ih =>
    intro fuel' s h1 h2
    match fuel, fuel', h1, h2 with
    | f + 1, g + 1, h1, h2 =>
      simp only [createDataTypeFuel]
      cases scalarKeyword s with
      | some t => rfl
      | none =>
        split_ifs with c
        · have hmid : ((s.drop 9).dropLast).length < f ∧ ((s.drop 9).dropLast).length < g := by
            have h11 := c.1
            constructor <;> (simp only [List.length_dropLast, List.length_drop]; omega)
          rw [ih f (Nat.lt_succ_self f) g ((s.drop 9).dropLast) hmid.1 hmid.2]
        · rfl

theorem acceptsType_getName {s : Name} {t : DataType} (h : AcceptsType s t) :
    t.getName = s := by
  induction h with
  | nullable hx ih => simp only [DataType.getName, ih]
  | _ => rfl

theorem acceptsType_length {s : Name} {t : DataType} (h : AcceptsType s t) :
    4 ≤ s.length := by
  induction h with
  | nullable hx ih => simp only [List.length_append]; omega
  | _ => decide

theorem acceptsType_noLineTerm {s : Name} {t : DataType} (h : AcceptsType s t) :
    ∀ c ∈ s, lineTerm c = false := by
  induction h with
  | nullable hx ih =>
    intro c hc
    simp only [List.mem_append, List.mem_singleton] at hc
    have hpre : ∀ c ∈ "Nullable(".data, lineTerm c = false := by decide
    rcases hc with (hc | hc) | hc
    · exact hpre c hc
    · exact ih c hc
    · subst hc; decide
  | _ => decide

/-- The decomposition the anchored regex match establishes: prefix
`Nullable(`, a nonempty middle, and the final `)`. -/
theorem nullable_decomp (s : Name) (hlen : 11 ≤ s.length)
    (htake : s.take 9 = "Nullable(".data) (hlast : s.getLast? = some ')') :
    s = "Nullable(".data ++ (s.drop 9).dropLast ++ [')'] := by
  have hne : s.drop 9 ≠ [] := by
    intro h
    apply_fun List.length at h
    simp only [List.length_drop, List.length_nil] at h
    omega
  have hsplit : s = s.take 9 ++ s.drop 9 := (List.take_append_drop 9 s).symm
  have hlast9 : (s.drop 9).getLast hne = ')' := by
    have h1 : s ≠ [] := by
      intro h; subst h; simp at hlen
    have h2 : s.getLast h1 = ')' := by
      have := List.getLast?_eq_getLast s h1
      rw [hlast] at this
      exact (Option.some_inj.mp this).symm
    calc (s.drop 9).getLast hne
        = (s.take 9 ++ s.drop 9).getLast (by rw [← hsplit]; exact h1) := by
          rw [List.getLast_append_of_ne_nil]
      _ = s.getLast h1 := by congr 1; exact hsplit.symm
      _ = ')' := h2
  conv_lhs => rw [hsplit, htake]
  rw [List.append_assoc]
  congr 1
  conv_lhs => rw [← List.dropLast_concat_getLast hne]
  rw [hlast9]

theorem scalarKeyword_accepts {s : Name} {t : DataType} (h : scalarKeyword s = some t) :
    AcceptsType s t := by
  simp only [scalarKeyword, Option.map_eq_some'] at h
  obtain ⟨p, hfind, hp2⟩ := h
  have hmem := List.mem_of_find?_eq_some hfind
  have hsb := List.find?_some hfind
  have hs : p.1 = s := eq_of_beq hsb
  subst hs
  subst hp2
  simp only [scalarKeywords, List.mem_cons, List.not_mem_nil, or_false] at hmem
  rcases hmem with h | h | h | h | h | h | h | h | h | h | h <;>
    (subst h; constructor)

theorem scalarKeyword_none_of_long {s : Name} (h : 8 ≤ s.length) :
    scalarKeyword s = none := by
  simp only [scalarKeyword, Option.map_eq_none', List.find?_eq_none]
  intro p hp
  have hlen : p.1.length ≤ 7 := by
    simp only [scalarKeywords, List.mem_cons, List.not_mem_nil, or_false] at hp
    rcases hp with h | h | h | h | h | h | h | h | h | h | h <;> (subst h; decide)
  intro hbeq
  have he := eq_of_beq hbeq
  apply_fun List.length at he
  omega

theorem createDataTypeFuel_ok_accepts (fuel : Nat) : ∀ (s : Name) (t : DataType),
    createDataTypeFuel fuel s = .ok t → AcceptsType s t := by
  induction fuel with
  | zero => intro s t h; simp [createDataTypeFuel] at h
  | succ f ih =>
    intro s t h
    simp only [createDataTypeFuel] at h
    cases hk : scalarKeyword s with
    | some t' =>
      rw [hk] at h
      cases h
      exact scalarKeyword_accepts hk
    | none =>
      rw [hk] at h
      split_ifs at h with c
      · obtain ⟨h11, htake, hlast, -⟩ := c
        rcases hrec : createDataTypeFuel f ((s.drop 9).dropLast) with e | t'
        · rw [hrec] at h; cases h
        · rw [hrec] at h
          cases h
          have hs := nullable_decomp s h11 htake hlast
          rw [hs]
          exact .nullable (ih _ _ hrec)

theorem acceptsType_createDataTypeL {s : Name} {t : DataType} (h : AcceptsType s t) :
    createDataTypeL s = .ok t := by
  induction h with
  | int8 => decide
  | int16 => decide
  | int32 => decide
  | int64 => decide
  | uint8 => decide
  | uint16 => decide
  | uint32 => decide
  | uint64 => decide
  | float32 => decide
  | float64 => decide
  | string => decide
  | @nullable x t hx ih =>
    have hxlen := acceptsType_length hx
    have hslen : ("Nullable(".data ++ x ++ [')']).length = x.length + 10 := by
      simp [List.length_append]
    have htake : ("Nullable(".data ++ x ++ [')']).take 9 = "Nullable(".data := by
      rw [List.append_assoc]
      exact List.take_left' rfl
    have hdrop : ("Nullable(".data ++ x ++ [')']).drop 9 = x ++ [')'] := by
      rw [List.append_assoc]
      exact List.drop_left' rfl
    have hlast : ("Nullable(".data ++ x ++ [')']).getLast? = some ')' :=
      List.getLast?_concat _
    have hmid : (("Nullable(".data ++ x ++ [')']).drop 9).dropLast = x := by
      rw [hdrop, List.dropLast_concat]
    have hall : ((("Nullable(".data ++ x ++ [')']).drop 9).dropLast.all
        fun c => !(lineTerm c)) = true := by
      rw [hmid, List.all_eq_true]
      intro c hc
      simp [acceptsType_noLineTerm hx c hc]
    show createDataTypeFuel (("Nullable(".data ++ x ++ [')']).length + 1)
      ("Nullable(".data ++ x ++ [')']) = _
    rw [hslen]
    rw [createDataTypeFuel]
    rw [scalarKeyword_none_of_long (by rw [hslen]; omega),
      if_pos ⟨by rw [hslen]; omega, htake, hlast, hall⟩, hmid,
      createDataTypeFuel_congr (x.length + 10) (x.length + 1) x (by omega) (by omega)]
    simp only [createDataTypeL] at ih
    rw [ih]

/-- C7: `createDataType(name)` succeeds exactly when the name is one of the
eleven scalar keywords or has the form `Nullable(X)` with `X` itself
accepted (recursively), and on success the returned descriptor is the one
the grammar associates to the name — in particular its kind matches the
grammar derivation and its rendered name (`getName`) is the input
itself. -/
theorem createDataType_accepts_spec (s : Name) :
    ((∃ t, createDataTypeL s = .ok t) ↔ ∃ t, AcceptsType s t)
    ∧ ∀ t, createDataTypeL s = .ok t → AcceptsType s t ∧ t.getName = s := by
  constructor
  · constructor
    · rintro ⟨t, ht⟩
      exact ⟨t, createDataTypeFuel_ok_accepts _ _ _ ht⟩
    · rintro ⟨t, ht⟩
      exact ⟨t, acceptsType_createDataTypeL ht⟩
  · intro t ht
    have ha := createDataTypeFuel_ok_accepts _ _ _ ht
    exact ⟨ha, acceptsType_getName ha⟩

/-- C7 witness: the theorem applied at `Nullable(Nullable(Int8))`, the
grammar derivation discharging the membership, and the rendered-name
conclusion at a successful concrete parse. -/
theorem createDataType_accepts_witness :
    (∃ t, createDataTypeL "Nullable(Nullable(Int8))".data = .ok t)
    ∧ (AcceptsType "Nullable(Int32)".data (.nullable .int32)
        ∧ (DataType.nullable .int32).getName = "Nullable(Int32)".data) :=
  ⟨(createDataType_accepts_spec "Nullable(Nullable(Int8))".data).1.mpr
      ⟨.nullable (.nullable .int8),
        by
          have h1 : AcceptsType "Nullable(Int8)".data (.nullable .int8) :=
            AcceptsType.nullable AcceptsType.int8
          have h2 := AcceptsType.nullable h1
          exact h2⟩,
    (createDataType_accepts_spec "Nullable(Int32)".data).2 (.nullable .int32)
      (by decide)⟩

/-! ## Claim C8: binary codecs -/

theorem leBytes_length (w v : Nat) : (leBytes w v).length = w := by
  induction w generalizing v with
  | zero => rfl
  | succ w ih => simp [leBytes, ih]

theorem leValue_leBytes (w v : Nat) : leValue (leBytes w v) = v % 2 ^ (8 * w) := by
  induction w generalizing v with
  | zero => simp [leBytes, leValue, Nat.mod_one]
  | succ w ih =>
    have h2 : (2 : Nat) ^ (8 * (w + 1)) = 256 * 2 ^ (8 * w) := by ring
    rw [leBytes, leValue, ih, h2, Nat.mod_mul]

/-- C8 (amended): the String codec writes a 4-byte little-endian length
prefix followed by the raw bytes, so that serialize-then-deserialize is
the identity for every string shorter than `2^32` bytes (the prefix is
`static_cast<uint32_t>(size)`, so longer strings do not round-trip, see
the counterexample); deserialization fails with the truncation error
whenever the buffer is shorter than 4 bytes, or shorter than 4 plus the
encoded length; fixed-width scalar codecs append exactly `sizeof(T)` raw
bytes, deserialization fails when fewer than `sizeof(T)` bytes are
supplied and otherwise reads back exactly the value whose bytes were
written, ignoring any trailing bytes. -/
theorem binary_codec_spec :
    (∀ s : List Nat, s.length < 2 ^ 32 →
      stringDeserializeBinary (stringSerializeBinary s []) = .ok s)
    ∧ (∀ buffer : List Nat, buffer.length < 4 →
        stringDeserializeBinary buffer = .error .truncatedData)
    ∧ (∀ buffer : List Nat, 4 ≤ buffer.length →
        buffer.length < 4 + leValue (buffer.take 4) →
        stringDeserializeBinary buffer = .error .truncatedData)
    ∧ (∀ w v : Nat, ∀ buffer : List Nat,
        (numberSerializeBinary w v buffer).length = buffer.length + w)
    ∧ (∀ w : Nat, ∀ buffer : List Nat, buffer.length < w →
        numberDeserializeBinary w buffer = .error .truncatedData)
    ∧ (∀ w v : Nat, ∀ rest : List Nat, v < 2 ^ (8 * w) →
        numberDeserializeBinary w (numberSerializeBinary w v [] ++ rest) = .ok v) := by
  refine ⟨?_, ?_, ?_, ?_, ?_, ?_⟩
  · intro s hs
    have hmod : s.length % 2 ^ 32 = s.length := Nat.mod_eq_of_lt hs
    have hser : stringSerializeBinary s [] = leBytes 4 s.length ++ s := by
      simp only [stringSerializeBinary, List.nil_append, hmod, List.take_length]
    rw [hser]
    have hlen : (leBytes 4 s.length ++ s).length = 4 + s.length := by
      simp [leBytes_length]
    have htake : (leBytes 4 s.length ++ s).take 4 = leBytes 4 s.length :=
      List.take_left' (leBytes_length 4 s.length)
    have hdrop : (leBytes 4 s.length ++ s).drop 4 = s :=
      List.drop_left' (leBytes_length 4 s.length)
    have hval : leValue ((leBytes 4 s.length ++ s).take 4) = s.length := by
      rw [htake, leValue_leBytes]
      exact hmod
    simp only [stringDeserializeBinary, hlen, hval, hdrop]
    rw [if_neg (by omega), if_neg (by omega), List.take_length]
  · intro buffer h
    simp [stringDeserializeBinary, h]
  · intro buffer h4 hshort
    simp only [stringDeserializeBinary]
    rw [if_neg (by omega), if_pos hshort]
  · intro w v buffer
    simp [numberSerializeBinary, leBytes_length]
  · intro w buffer h
    simp [numberDeserializeBinary, h]
  · intro w v rest hv
    have hlen : (numberSerializeBinary w v [] ++ rest).length = w + rest.length := by
      simp [numberSerializeBinary, leBytes_length]
    have htake : (numberSerializeBinary w v [] ++ rest).take w = leBytes w v := by
      simp only [numberSerializeBinary, List.nil_append]
      exact List.take_left' (leBytes_length w v)
    simp only [numberDeserializeBinary, hlen, htake]
    rw [if_neg (by omega), leValue_leBytes, Nat.mod_eq_of_lt hv]

/-- C8 counterexample: as stated, the claim requires every string to
round-trip, but the length prefix is `static_cast<uint32_t>(size)`, so the
string of `2^32` zero bytes serializes to a zero length prefix with no
payload and deserializes back to the empty string. -/
theorem binary_codec_counterexample :
    stringDeserializeBinary (stringSerializeBinary (List.replicate (2 ^ 32) 0) []) = .ok []
    ∧ (List.replicate (2 ^ 32) (0 : Nat)) ≠ [] := by
  constructor
  · have h1 : (List.replicate (2 ^ 32) (0 : Nat)).length = 2 ^ 32 :=
      List.length_replicate _ _
    simp only [stringSerializeBinary, h1, Nat.mod_self, List.take_zero, List.nil_append,
      List.append_nil]
    decide
  · intro h
    have h2 := congrArg List.length h
    rw [List.length_replicate, List.length_nil] at h2
    exact absurd h2 (Nat.pos_iff_ne_zero.mp (Nat.two_pow_pos 32))

/-- C8 witness: the amended theorem applied at a concrete string and a
concrete 4-byte scalar. -/
theorem binary_codec_witness :
    (([65, 66, 67] : List Nat).length < 2 ^ 32
      ∧ stringDeserializeBinary (stringSerializeBinary [65, 66, 67] []) = .ok [65, 66, 67])
    ∧ (([1, 2] : List Nat).length < 4
      ∧ stringDeserializeBinary [1, 2] = .error .truncatedData)
    ∧ ((300 : Nat) < 2 ^ (8 * 4)
      ∧ numberDeserializeBinary 4 (numberSerializeBinary 4 300 [] ++ [9]) = .ok 300) :=
  ⟨⟨by decide, binary_codec_spec.1 [65, 66, 67] (by decide)⟩,
    ⟨by decide, binary_codec_spec.2.1 [1, 2] (by decide)⟩,
    ⟨by decide, binary_codec_spec.2.2.2.2.2 4 300 [9] (by decide)⟩⟩

/-! ## Claim C3: MIN/MAX vs SUM/AVG on a column with no non-null entries -/

theorem foldlM_skip_all {σ : Type} (f : σ → Cell → Except DBError σ)
    (hf : ∀ (s : σ) (x : Cell), x.isNull = true → f s x = .ok s) :
    ∀ (cells : List Cell) (init : σ), (∀ x ∈ cells, x.isNull = true) →
      cells.foldlM f init = .ok init := by
  intro cells
  induction cells with
  | nil => intro init _; rfl
  | cons x xs ih =>
    intro init hall
    have hx := hall x (List.mem_cons_self x xs)
    simp only [List.foldlM_cons, hf init x hx, except_bind_ok]
    exact ih init (fun y hy => hall y (List.mem_cons_of_mem x hy))

theorem foldlM_blocks_skip {σ : Type} (g : σ → Block → Except DBError σ)
    (blocks : List Block) (hg : ∀ (s : σ) (b : Block), b ∈ blocks → g s b = .ok s) :
    ∀ init, blocks.foldlM g init = .ok init := by
  induction blocks with
  | nil => intro init; rfl
  | cons b bs ih =>
    intro init
    simp only [List.foldlM_cons, hg init b (List.mem_cons_self b bs), except_bind_ok]
    exact ih (fun s b' hb' => hg s b' (List.mem_cons_of_mem b hb')) init

theorem except_pure_bind {ε α β : Type} (a : α) (f : α → Except ε β) :
    (pure a >>= f : Except ε β) = f a := rfl

/-- On a block whose named column is all-null (or which is skipped), any
aggregate block step whose cell step ignores null cells returns its
accumulator unchanged. -/
theorem aggBlockStep_skip {σ : Type} (cellStep : σ → Cell → Except DBError σ)
    (hf : ∀ (s : σ) (x : Cell), x.isNull = true → cellStep s x = .ok s)
    (column_name : Name) (b : Block)
    (hb : ¬(b.getColumnCount = 0 ∨ b.getRowCount = 0) →
      ∃ c, b.getColumnByName column_name = .ok c ∧ ∀ x ∈ c.column.cells, x.isNull = true) :
    ∀ s, aggBlockStep cellStep column_name s b = .ok s := by
  intro s
  rw [aggBlockStep]
  split_ifs with hc
  · rfl
  · obtain ⟨c, hcol, hcells⟩ := hb hc
    rw [hcol, except_bind_ok]
    exact foldlM_skip_all _ hf _ _ hcells

/-- C3 (amended): over a column with no non-null entries the aggregates
split by whether any block was read at all.  On a NONEMPTY block list whose
named column is everywhere null (or belongs only to columnless/rowless
blocks), MIN and MAX fail with the no-non-null-values error while SUM
yields its zero and AVG yields 0.  On an EMPTY block list MIN and MAX fail
with the distinct no-data error — not the no-non-null-values one — while
SUM and AVG still yield 0.  The result-type widening (`getv`, `add`,
`zero`) and the comparisons (`lt`, `gt`) are the per-kind template
instantiations. -/
theorem aggregates_on_all_null_column {β : Type} (getv : Cell → Except DBError β)
    (add : β → β → β) (zero : β) (lt gt : β → β → Bool)
    (getvR : Cell → Except DBError Rat)
    (blocks : List Block) (column_name : Name)
    (hnull : ∀ b ∈ blocks, ¬(b.getColumnCount = 0 ∨ b.getRowCount = 0) →
      ∃ c, b.getColumnByName column_name = .ok c ∧ ∀ x ∈ c.column.cells, x.isNull = true) :
    (blocks ≠ [] →
      computeMin getv lt blocks column_name = .error .noNonNullValuesMin
      ∧ computeMax getv gt blocks column_name = .error .noNonNullValuesMax
      ∧ computeSum getv add zero blocks column_name = .ok zero
      ∧ computeAvg getvR blocks column_name = .ok 0)
    ∧ (blocks = [] →
      computeMin getv lt blocks column_name = .error .noDataMin
      ∧ computeMax getv gt blocks column_name = .error .noDataMax
      ∧ computeSum getv add zero blocks column_name = .ok zero
      ∧ computeAvg getvR blocks column_name = .ok 0) := by
  have hmin : ∀ (s : Option β) (x : Cell), x.isNull = true →
      extremumStep getv lt s x = .ok s := fun s x hx => by simp [extremumStep, hx]
  have hmax : ∀ (s : Option β) (x : Cell), x.isNull = true →
      extremumStep getv gt s x = .ok s := fun s x hx => by simp [extremumStep, hx]
  have hsum : ∀ (s : β) (x : Cell), x.isNull = true →
      sumStep getv add s x = .ok s := fun s x hx => by simp [sumStep, hx]
  have havg : ∀ (s : Rat × Nat) (x : Cell), x.isNull = true →
      avgStep getvR s x = .ok s := fun s x hx => by simp [avgStep, hx]
  constructor
  · intro hne
    refine ⟨?_, ?_, ?_, ?_⟩
    · simp only [computeMin]
      rw [if_neg hne, except_pure_bind,
        foldlM_blocks_skip _ blocks
          (fun s b hb => aggBlockStep_skip _ hmin column_name b (hnull b hb) s) none,
        except_bind_ok]
      rfl
    · simp only [computeMax]
      rw [if_neg hne, except_pure_bind,
        foldlM_blocks_skip _ blocks
          (fun s b hb => aggBlockStep_skip _ hmax column_name b (hnull b hb) s) none,
        except_bind_ok]
      rfl
    · simp only [computeSum]
      exact foldlM_blocks_skip _ blocks
        (fun s b hb => aggBlockStep_skip _ hsum column_name b (hnull b hb) s) zero
    · simp only [computeAvg]
      rw [foldlM_blocks_skip _ blocks
          (fun s b hb => aggBlockStep_skip _ havg column_name b (hnull b hb) s)
          ((0 : Rat), (0 : Nat)),
        except_bind_ok]
      norm_num
  · intro hemp
    subst hemp
    refine ⟨rfl, rfl, rfl, ?_⟩
    simp only [computeAvg]
    rw [show (List.foldlM (aggBlockStep (avgStep getvR) column_name)
        ((0 : Rat), (0 : Nat)) ([] : List Block))
        = pure ((0 : Rat), (0 : Nat)) from rfl, except_pure_bind]
    norm_num

/-- C3 counterexample: as stated, the claim requires MIN and MAX over an
empty column to fail with the no-non-null-values error, but on an empty
block list `computeMin`/`computeMax` throw the distinct no-data error, and
through the SQL interface `SELECT MIN(a)` on a table with zero stored
blocks never even reaches them: the aggregate path is skipped and a
successful EMPTY rowset is returned — no error, and no zero-valued row
from SUM or AVG either. -/
theorem aggregates_empty_counterexample :
    computeMin cellInt (fun a b => decide (a < b)) ([] : List Block) "a".data
      = .error .noDataMin
    ∧ computeMax cellInt (fun a b => decide (b < a)) ([] : List Block) "a".data
      = .error .noDataMax
    ∧ DBError.noDataMin ≠ DBError.noNonNullValuesMin
    ∧ executeSelect astMinA tablesEmptyAB = .okRows [] ["a".data] := by
  refine ⟨by decide, by decide, by decide, by decide⟩

/-- C3 witness: the amended theorem applied to one concrete block holding a
single all-null column, at the signed-64 instantiation. -/
theorem aggregates_on_all_null_witness :
    ([Block.empty.addColumn ['x'] ⟨.int32, [.null, .null]⟩] ≠ ([] : List Block) →
      computeMin cellInt (fun a b => decide (a < b))
          [Block.empty.addColumn ['x'] ⟨.int32, [.null, .null]⟩] ['x']
        = .error .noNonNullValuesMin
      ∧ computeMax cellInt (fun a b => decide (b < a))
          [Block.empty.addColumn ['x'] ⟨.int32, [.null, .null]⟩] ['x']
        = .error .noNonNullValuesMax
      ∧ computeSum cellInt (fun a b => a + b) 0
          [Block.empty.addColumn ['x'] ⟨.int32, [.null, .null]⟩] ['x'] = .ok 0
      ∧ computeAvg (fun c => (cellInt c).map (fun v => (v : Rat)))
          [Block.empty.addColumn ['x'] ⟨.int32, [.null, .null]⟩] ['x'] = .ok 0)
    ∧ ([Block.empty.addColumn ['x'] ⟨.int32, [.null, .null]⟩] = ([] : List Block) →
      computeMin cellInt (fun a b => decide (a < b))
          [Block.empty.addColumn ['x'] ⟨.int32, [.null, .null]⟩] ['x']
        = .error .noDataMin
      ∧ computeMax cellInt (fun a b => decide (b < a))
          [Block.empty.addColumn ['x'] ⟨.int32, [.null, .null]⟩] ['x']
        = .error .noDataMax
      ∧ computeSum cellInt (fun a b => a + b) 0
          [Block.empty.addColumn ['x'] ⟨.int32, [.null, .null]⟩] ['x'] = .ok 0
      ∧ computeAvg (fun c => (cellInt c).map (fun v => (v : Rat)))
          [Block.empty.addColumn ['x'] ⟨.int32, [.null, .null]⟩] ['x'] = .ok 0) :=
  aggregates_on_all_null_column cellInt (fun a b => a + b) 0
    (fun a b => decide (a < b)) (fun a b => decide (b < a))
    (fun c => (cellInt c).map (fun v => (v : Rat)))
    [Block.empty.addColumn ['x'] ⟨.int32, [.null, .null]⟩] ['x']
    (by
      intro b hb hcond
      rw [List.mem_singleton] at hb
      subst hb
      exact ⟨⟨['x'], ⟨.int32, [.null, .null]⟩⟩, by decide, by decide⟩)

/-! ## Claim C10: INSERT into a Nullable column -/

theorem makeInsertColumns_cons (ts : TableStructure) (n : Name) (rest : List Name)
    (cd : ColumnDefinition) (h : ts.getColumnByName n = .ok cd) :
    makeInsertColumns ts (n :: rest) =
      if cd.type.getTypeId.isInsertSupported then
        makeInsertColumns ts rest >>= fun cols =>
          .ok (({ type := cd.type, cells := [] } : IColumn) :: cols)
      else .error (.unsupportedDataTypeForColumn n) := by
  simp only [makeInsertColumns, h, except_bind_ok]
  cases cd.type.getTypeId <;> rfl

/-- When every target column resolves but some target's kind is outside the
eleven the switch handles, column construction aborts with the
unsupported-data-type error naming the first such column. -/
theorem makeInsertColumns_err_of_unsupported (ts : TableStructure) :
    ∀ (names : List Name),
    (∀ n ∈ names, ∃ cd, ts.getColumnByName n = .ok cd) →
    (∃ n ∈ names, ∃ cd, ts.getColumnByName n = .ok cd
      ∧ cd.type.getTypeId.isInsertSupported = false) →
    ∃ c ∈ names, makeInsertColumns ts names = .error (.unsupportedDataTypeForColumn c) := by
  intro names
  induction names with
  | nil =>
    rintro _ ⟨n, hn, -⟩
    exact absurd hn (List.not_mem_nil n)
  | cons n rest ih =>
    rintro hlook ⟨n0, hn0, cd0, hcd0, hunsupp⟩
    obtain ⟨cd, hcd⟩ := hlook n (List.mem_cons_self n rest)
    rw [makeInsertColumns_cons ts n rest cd hcd]
    by_cases hs : cd.type.getTypeId.isInsertSupported
    · rw [if_pos hs]
      have hn0rest : n0 ∈ rest := by
        rcases List.mem_cons.mp hn0 with heq | hmem
        · subst heq
          rw [hcd0] at hcd
          cases hcd
          rw [hunsupp] at hs
          cases hs
        · exact hmem
      obtain ⟨c, hc, herr⟩ :=
        ih (fun m hm => hlook m (List.mem_cons_of_mem n hm)) ⟨n0, hn0rest, cd0, hcd0, hunsupp⟩
      rw [herr]
      exact ⟨c, List.mem_cons_of_mem n hc, rfl⟩
    · rw [if_neg hs]
      exact ⟨n, List.mem_cons_self n rest, rfl⟩

/-- C10 (amended): on a table whose schema declares a `Nullable(X)` column
(accepted by the type factory), every INSERT statement whose resolved
target column list includes that column, has at least one value row, and
whose rows all match the target column count, fails with the
unsupported-data-type error naming a target column, with the table
registry unchanged — the failure happens in column construction, before
any value conversion or storage call.  (Statements failing the earlier
existence/row-count validations fail with those other errors instead, also
before any storage mutation; see the counterexample.) -/
theorem insert_nullable_column_unsupported (ast : InsertAST) (tables : Tables)
    (storage : MemoryStorage) (names : List Name)
    (hlookup : lookupTable tables ast.table_name = some storage)
    (hres : resolveInsertColumns storage.structure_ ast.column_names = .ok names)
    (hvals : ast.values ≠ [])
    (hrows : ∀ row ∈ ast.values, row.length = names.length)
    (hlook : ∀ n ∈ names, ∃ cd, storage.structure_.getColumnByName n = .ok cd)
    (hnul : ∃ n ∈ names, ∃ cd, storage.structure_.getColumnByName n = .ok cd
      ∧ cd.type.getTypeId = .Nullable) :
    ∃ c ∈ names,
      executeInsert ast tables = (.err (.unsupportedDataTypeForColumn c), tables) := by
  have hunsupp : ∃ n ∈ names, ∃ cd, storage.structure_.getColumnByName n = .ok cd
      ∧ cd.type.getTypeId.isInsertSupported = false := by
    obtain ⟨n, hn, cd, hcd, hnl⟩ := hnul
    exact ⟨n, hn, cd, hcd, by rw [hnl]; rfl⟩
  obtain ⟨c, hc, herr⟩ := makeInsertColumns_err_of_unsupported storage.structure_ names
    hlook hunsupp
  refine ⟨c, hc, ?_⟩
  have hany : ast.values.any (fun row => row.length ≠ names.length) = false := by
    rw [List.any_eq_false]
    intro row hrow
    simp [hrows row hrow]
  simp only [executeInsert, hlookup, hres, hany, herr, if_neg hvals]
  rfl

/-- C10 counterexample: as stated, the claim demands the
unsupported-data-type error for every INSERT naming the Nullable column,
but an INSERT whose row has the wrong arity fails earlier with the
value-count error — `INSERT INTO t VALUES (1, 2)` on the one-column table
`t(a Nullable(Int32))`. -/
theorem insert_nullable_counterexample :
    executeInsert ⟨"t".data, [], [[['1'], ['2']]]⟩ tablesN
      = (.err .valuesCountMismatch, tablesN)
    ∧ .err .valuesCountMismatch
        ≠ QueryResult.err (.unsupportedDataTypeForColumn "a".data) := by
  constructor
  · decide
  · decide

/-- C10 witness: the amended theorem applied to
`INSERT INTO t VALUES (1)` on `t(a Nullable(Int32))`, together with the
type factory accepting the declared type. -/
theorem insert_nullable_witness :
    (∃ c ∈ ["a".data],
      executeInsert ⟨"t".data, [], [[['1']]]⟩ tablesN
        = (.err (.unsupportedDataTypeForColumn c), tablesN))
    ∧ createDataTypeL "Nullable(Int32)".data = .ok (.nullable .int32) :=
  ⟨insert_nullable_column_unsupported ⟨"t".data, [], [[['1']]]⟩ tablesN storN ["a".data]
      (by decide) (by decide) (by decide) (by decide)
      (fun n hn => by
        rw [List.mem_singleton] at hn
        subst hn
        exact ⟨⟨"a".data, .nullable .int32⟩, by decide⟩)
      ⟨"a".data, by decide, ⟨"a".data, .nullable .int32⟩, by decide, by decide⟩,
    by decide⟩

/-! ## Claim C4: INSERT atomicity -/

theorem orConvError_err {α : Type} (r : Except Unit α) (v n : Name) (f : α → Cell)
    (e : DBError) (h : orConvError r v n f = .error e) : e = .valueConversionError v n := by
  cases r with
  | error u => simp only [orConvError] at h; cases h; rfl
  | ok a => simp [orConvError] at h

theorem fillValue_err_supported (tid : DataTypeID) (v n : Name) (e : DBError)
    (hsupp : tid.isInsertSupported = true) (h : fillValue tid v n = .error e) :
    e = .valueConversionError v n := by
  cases tid <;>
    simp only [DataTypeID.isInsertSupported] at hsupp <;>
    simp only [fillValue] at h <;>
    first
      | exact orConvError_err _ _ _ _ _ h
      | exact absurd hsupp Bool.false_ne_true
      | cases h

theorem fillRow_ok_lengths (ts : TableStructure) :
    ∀ (vs ns : List Name) (cols cols' : List IColumn),
    fillRow ts vs ns cols = .ok cols' →
    vs.length = ns.length → ns.length = cols.length →
    cols'.map (fun c => c.cells.length) = cols.map (fun c => c.cells.length + 1) := by
  intro vs
  induction vs with
  | nil =>
    intro ns cols cols' h h1 h2
    cases ns with
    | cons n ns' => simp at h1
    | nil =>
      cases cols with
      | cons c cs => simp at h2
      | nil => cases h; rfl
  | cons v vs ih =>
    intro ns cols cols' h h1 h2
    cases ns with
    | nil => simp at h1
    | cons n ns' =>
      cases cols with
      | nil => simp at h2
      | cons c cs =>
        simp only [fillRow] at h
        cases hcd : ts.getColumnByName n with
        | error e => rw [hcd, except_bind_error] at h; cases h
        | ok cd =>
          rw [hcd, except_bind_ok] at h
          cases hfv : fillValue cd.type.getTypeId v n with
          | error e => rw [hfv, except_bind_error] at h; cases h
          | ok cell =>
            rw [hfv, except_bind_ok] at h
            cases hfr : fillRow ts vs ns' cs with
            | error e => rw [hfr, except_bind_error] at h; cases h
            | ok rest =>
              rw [hfr, except_bind_ok] at h
              cases h
              simp only [List.map_cons, List.cons.injEq]
              refine ⟨by simp, ih ns' cs rest hfr (by simpa using h1) (by simpa using h2)⟩

theorem fillRow_err (ts : TableStructure) :
    ∀ (vs ns : List Name) (cols : List IColumn) (e : DBError),
    fillRow ts vs ns cols = .error e →
    vs.length = ns.length → ns.length = cols.length →
    (∀ n ∈ ns, ∃ cd, ts.getColumnByName n = .ok cd
      ∧ cd.type.getTypeId.isInsertSupported = true) →
    ∃ v ∈ vs, ∃ n ∈ ns, e = .valueConversionError v n := by
  intro vs
  induction vs with
  | nil =>
    intro ns cols e h h1 h2 hsupp
    cases ns with
    | cons n ns' => simp at h1
    | nil =>
      cases cols with
      | cons c cs => simp at h2
      | nil => cases h
  | cons v vs ih =>
    intro ns cols e h h1 h2 hsupp
    cases ns with
    | nil => simp at h1
    | cons n ns' =>
      cases cols with
      | nil => simp at h2
      | cons c cs =>
        obtain ⟨cd, hcd, hcs⟩ := hsupp n (List.mem_cons_self n ns')
        simp only [fillRow] at h
        rw [hcd, except_bind_ok] at h
        cases hfv : fillValue cd.type.getTypeId v n with
        | error e' =>
          rw [hfv, except_bind_error] at h
          cases h
          exact ⟨v, List.mem_cons_self v vs, n, List.mem_cons_self n ns',
            fillValue_err_supported _ _ _ _ hcs hfv⟩
        | ok cell =>
          rw [hfv, except_bind_ok] at h
          cases hfr : fillRow ts vs ns' cs with
          | error e' =>
            rw [hfr, except_bind_error] at h
            cases h
            obtain ⟨v', hv', n', hn', he⟩ := ih ns' cs e hfr (by simpa using h1)
              (by simpa using h2) (fun m hm => hsupp m (List.mem_cons_of_mem n hm))
            exact ⟨v', List.mem_cons_of_mem v hv', n', List.mem_cons_of_mem n hn', he⟩
          | ok rest => rw [hfr, except_bind_ok] at h; cases h

theorem fillRows_ok_lengths (ts : TableStructure) (ns : List Name) :
    ∀ (rows : List (List Name)) (cols cols' : List IColumn),
    fillRows ts ns rows cols = .ok cols' →
    (∀ row ∈ rows, row.length = ns.length) → ns.length = cols.length →
    cols'.map (fun c => c.cells.length)
      = cols.map (fun c => c.cells.length + rows.length) := by
  intro rows
  induction rows with
  | nil =>
    intro cols cols' h _ _
    cases h
    simp
  | cons row rows ih =>
    intro cols cols' h hrows h2
    simp only [fillRows] at h
    cases hfr : fillRow ts row ns cols with
    | error e => rw [hfr, except_bind_error] at h; cases h
    | ok cols1 =>
      rw [hfr, except_bind_ok] at h
      have hlen1 := fillRow_ok_lengths ts row ns cols cols1 hfr
        (hrows row (List.mem_cons_self row rows)) h2
      have hcols1len : ns.length = cols1.length := by
        have := congrArg List.length hlen1
        simp only [List.length_map] at this
        omega
      have hrec := ih cols1 cols' h
        (fun r hr => hrows r (List.mem_cons_of_mem row hr)) hcols1len
      calc cols'.map (fun c => c.cells.length)
          = cols1.map (fun c => c.cells.length + rows.length) := hrec
        _ = (cols1.map (fun c => c.cells.length)).map (· + rows.length) := by
            rw [List.map_map]; rfl
        _ = (cols.map (fun c => c.cells.length + 1)).map (· + rows.length) := by
            rw [hlen1]
        _ = cols.map (fun c => c.cells.length + (row :: rows).length) := by
            rw [List.map_map]
            congr 1
            funext c
            simp only [Function.comp_apply, List.length_cons]
            omega

theorem fillRows_err (ts : TableStructure) (ns : List Name) :
    ∀ (rows : List (List Name)) (cols : List IColumn) (e : DBError),
    fillRows ts ns rows cols = .error e →
    (∀ row ∈ rows, row.length = ns.length) → ns.length = cols.length →
    (∀ n ∈ ns, ∃ cd, ts.getColumnByName n = .ok cd
      ∧ cd.type.getTypeId.isInsertSupported = true) →
    ∃ row ∈ rows, ∃ v ∈ row, ∃ n ∈ ns, e = .valueConversionError v n := by
  intro rows
  induction rows with
  | nil => intro cols e h _ _ _; cases h
  | cons row rows ih =>
    intro cols e h hrows h2 hsupp
    simp only [fillRows] at h
    cases hfr : fillRow ts row ns cols with
    | error e' =>
      rw [hfr, except_bind_error] at h
      cases h
      obtain ⟨v, hv, n, hn, he⟩ := fillRow_err ts row ns cols e hfr
        (hrows row (List.mem_cons_self row rows)) h2 hsupp
      exact ⟨row, List.mem_cons_self row rows, v, hv, n, hn, he⟩
    | ok cols1 =>
      rw [hfr, except_bind_ok] at h
      have hlen1 := fillRow_ok_lengths ts row ns cols cols1 hfr
        (hrows row (List.mem_cons_self row rows)) h2
      have hcols1len : ns.length = cols1.length := by
        have := congrArg List.length hlen1
        simp only [List.length_map] at this
        omega
      obtain ⟨r, hr, v, hv, n, hn, he⟩ := ih cols1 e h
        (fun r hr => hrows r (List.mem_cons_of_mem row hr)) hcols1len hsupp
      exact ⟨r, List.mem_cons_of_mem row hr, v, hv, n, hn, he⟩

theorem makeInsertColumns_ok (ts : TableStructure) :
    ∀ (names : List Name) (cols0 : List IColumn),
    makeInsertColumns ts names = .ok cols0 →
    cols0.length = names.length ∧ (∀ c ∈ cols0, c.cells = [])
    ∧ ∀ n ∈ names, ∃ cd, ts.getColumnByName n = .ok cd
        ∧ cd.type.getTypeId.isInsertSupported = true := by
  intro names
  induction names with
  | nil =>
    intro cols0 h
    cases h
    exact ⟨rfl, fun c hc => absurd hc (List.not_mem_nil c),
      fun n hn => absurd hn (List.not_mem_nil n)⟩
  | cons n rest ih =>
    intro cols0 h
    cases hcd : ts.getColumnByName n with
    | error e =>
      simp only [makeInsertColumns, hcd, except_bind_error] at h
      cases h
    | ok cd =>
      rw [makeInsertColumns_cons ts n rest cd hcd] at h
      by_cases hs : cd.type.getTypeId.isInsertSupported
      · rw [if_pos hs] at h
        cases hrec : makeInsertColumns ts rest with
        | error e => rw [hrec, except_bind_error] at h; cases h
        | ok cols' =>
          rw [hrec, except_bind_ok] at h
          cases h
          obtain ⟨hl, hcells, hlook⟩ := ih cols' hrec
          refine ⟨by simp [hl], ?_, ?_⟩
          · intro c hc
            rcases List.mem_cons.mp hc with heq | hmem
            · subst heq; rfl
            · exact hcells c hmem
          · intro m hm
            rcases List.mem_cons.mp hm with heq | hmem
            · subst heq; exact ⟨cd, hcd, hs⟩
            · exact hlook m hmem
      · rw [if_neg hs] at h
        cases h

theorem foldl_addColumn_columns :
    ∀ (l : List (Name × IColumn)) (b : Block),
    (l.foldl (fun b p => b.addColumn p.1 p.2) b).columns
      = b.columns ++ l.map (fun p => (⟨p.1, p.2⟩ : ColumnWithName)) := by
  intro l
  induction l with
  | nil => intro b; simp
  | cons p rest ih =>
    intro b
    rw [List.foldl_cons, ih]
    simp [Block.addColumn, List.append_assoc]

theorem buildInsertBlock_columns (names : List Name) (cols : List IColumn) :
    (buildInsertBlock names cols).columns
      = (names.zip cols).map (fun p => (⟨p.1, p.2⟩ : ColumnWithName)) := by
  simp [buildInsertBlock, foldl_addColumn_columns, Block.empty]

theorem validateColumns_true (ts : TableStructure) :
    ∀ (cols : List ColumnWithName), validateColumns ts cols = .ok true →
    ∀ c ∈ cols, ∃ cd, ts.getColumnByName c.name = .ok cd
      ∧ c.column.type.getTypeId = cd.type.getTypeId := by
  intro cols
  induction cols with
  | nil => intro _ c hc; exact absurd hc (List.not_mem_nil c)
  | cons c rest ih =>
    intro h c' hc'
    simp only [validateColumns] at h
    cases hcd : ts.getColumnByName c.name with
    | error e => rw [hcd, except_bind_error] at h; cases h
    | ok cd =>
      rw [hcd, except_bind_ok] at h
      by_cases h1 : ts.hasColumn c.name
      · rw [if_neg (not_not_intro h1)] at h
        by_cases h2 : c.column.type.getTypeId = cd.type.getTypeId
        · rw [if_neg (not_not_intro h2)] at h
          rcases List.mem_cons.mp hc' with heq | hmem
          · subst heq
            exact ⟨cd, hcd, h2⟩
          · exact ih h c' hmem
        · rw [if_pos h2] at h
          exact absurd h (by decide)
      · rw [if_pos h1] at h
        exact absurd h (by decide)

theorem insert_ok_spec (s : MemoryStorage) (b : Block) (s2 : MemoryStorage)
    (h : s.insert b = .ok s2) :
    s2 = { s with blocks := s.blocks ++ [b] }
    ∧ b.getColumnCount = s.structure_.getColumnCount
    ∧ ∀ c ∈ b.columns, ∃ cd, s.structure_.getColumnByName c.name = .ok cd
        ∧ c.column.type.getTypeId = cd.type.getTypeId := by
  simp only [MemoryStorage.insert] at h
  cases hv : s.validateBlock b with
  | error e => rw [hv, except_bind_error] at h; cases h
  | ok bv =>
    rw [hv, except_bind_ok] at h
    cases bv with
    | false => simp at h
    | true =>
      simp only [if_true] at h
      cases h
      simp only [MemoryStorage.validateBlock] at hv
      split_ifs at hv with hcount
      · cases hv
      · exact ⟨rfl, by omega, validateColumns_true s.structure_ b.columns hv⟩

/-- Case analysis of `executeInsert`: either some validation, conversion,
or storage step failed and the registry is returned unchanged, or every
step succeeded and exactly one combined block was handed to storage. -/
theorem executeInsert_spec (ast : InsertAST) (tables : Tables) :
    (∃ e, executeInsert ast tables = (.err e, tables))
    ∨ ∃ storage names cols0 cols storage2,
        lookupTable tables ast.table_name = some storage
        ∧ resolveInsertColumns storage.structure_ ast.column_names = .ok names
        ∧ ast.values ≠ []
        ∧ (∀ row ∈ ast.values, row.length = names.length)
        ∧ makeInsertColumns storage.structure_ names = .ok cols0
        ∧ fillRows storage.structure_ names ast.values cols0 = .ok cols
        ∧ storage.insert (buildInsertBlock names cols) = .ok storage2
        ∧ executeInsert ast tables
            = (.okMsg ast.values.length, updateTable tables ast.table_name storage2) := by
  cases hl : lookupTable tables ast.table_name with
  | none =>
    exact .inl ⟨.tableNotFound ast.table_name, by simp only [executeInsert, hl]⟩
  | some storage =>
    cases hr : resolveInsertColumns storage.structure_ ast.column_names with
    | error e =>
      exact .inl ⟨e, by simp only [executeInsert, hl, hr]⟩
    | ok names =>
      by_cases hv : ast.values = []
      · exact .inl ⟨.noValuesToInsert, by
          simp only [executeInsert, hl, hr]
          rw [if_pos hv]⟩
      · by_cases ha : (ast.values.any fun row => row.length ≠ names.length) = true
        · exact .inl ⟨.valuesCountMismatch, by
            simp only [executeInsert, hl, hr]
            rw [if_neg hv, if_pos ha]⟩
        · have ha' : ¬((ast.values.any fun row => row.length ≠ names.length) = true) := ha
          cases hm : makeInsertColumns storage.structure_ names with
          | error e =>
            exact .inl ⟨e, by
              simp only [executeInsert, hl, hr]
              rw [if_neg hv, if_neg ha']
              simp only [hm]⟩
          | ok cols0 =>
            cases hf : fillRows storage.structure_ names ast.values cols0 with
            | error e =>
              exact .inl ⟨e, by
                simp only [executeInsert, hl, hr]
                rw [if_neg hv, if_neg ha']
                simp only [hm, hf]⟩
            | ok cols =>
              cases hi : storage.insert (buildInsertBlock names cols) with
              | error e =>
                exact .inl ⟨e, by
                  simp only [executeInsert, hl, hr]
                  rw [if_neg hv, if_neg ha']
                  simp only [hm, hf, hi]⟩
              | ok storage2 =>
                refine .inr ⟨storage, names, cols0, cols, storage2, ?_, ?_, ?_, ?_, ?_, ?_,
                  ?_, ?_⟩
                · rfl
                · first | exact hr | rfl
                · exact hv
                · intro row hrow
                  have := (Bool.not_eq_true _).mp ha
                  rw [List.any_eq_false] at this
                  simpa using this row hrow
                · first | exact hm | rfl
                · first | exact hf | rfl
                · first | exact hi | rfl
                · simp only [executeInsert, hl, hr]
                  rw [if_neg hv, if_neg ha']
                  simp only [hm, hf, hi]

/-- C4 (amended): INSERT is atomic with respect to storage.  (1) Whenever
`executeInsert` reports an error — a failed value conversion, an earlier
validation failure, or a storage-level rejection — the table registry is
returned unchanged, so no row of the statement becomes visible.  (2) When
all target kinds are scalar and some textual value fails conversion, the
statement fails with the conversion error naming that value and its target
column, with the registry unchanged.  (3) On success all rows of the
statement are delivered to storage in one combined block holding one cell
per row per target column.  (4) The storage engine accepts a block only
after checking its column count equals the schema's and every block
column's name resolves in the schema with an equal type kind, appending
exactly that block; it does not check for duplicated block column names,
so a block whose names are not exactly the schema's can still be accepted
(see the counterexample). -/
theorem insert_atomicity_spec :
    (∀ (ast : InsertAST) (tables : Tables) (e : DBError),
        (executeInsert ast tables).1 = .err e → (executeInsert ast tables).2 = tables)
    ∧ (∀ (ast : InsertAST) (tables : Tables) (storage : MemoryStorage) (names : List Name)
        (cols0 : List IColumn) (e : DBError),
        lookupTable tables ast.table_name = some storage →
        resolveInsertColumns storage.structure_ ast.column_names = .ok names →
        ast.values ≠ [] →
        (∀ row ∈ ast.values, row.length = names.length) →
        makeInsertColumns storage.structure_ names = .ok cols0 →
        fillRows storage.structure_ names ast.values cols0 = .error e →
        executeInsert ast tables = (.err e, tables)
        ∧ ∃ row ∈ ast.values, ∃ v ∈ row, ∃ n ∈ names, e = .valueConversionError v n)
    ∧ (∀ (ast : InsertAST) (tables : Tables) (n : Nat),
        (executeInsert ast tables).1 = .okMsg n →
        n = ast.values.length
        ∧ ∃ storage block,
            lookupTable tables ast.table_name = some storage
            ∧ (executeInsert ast tables).2
                = updateTable tables ast.table_name
                    { storage with blocks := storage.blocks ++ [block] }
            ∧ block.getColumnCount = storage.structure_.getColumnCount
            ∧ ∀ c ∈ block.columns, c.column.cells.length = ast.values.length)
    ∧ (∀ (s : MemoryStorage) (b : Block) (s2 : MemoryStorage), s.insert b = .ok s2 →
        s2.blocks = s.blocks ++ [b]
        ∧ b.getColumnCount = s.structure_.getColumnCount
        ∧ ∀ c ∈ b.columns, ∃ cd, s.structure_.getColumnByName c.name = .ok cd
            ∧ c.column.type.getTypeId = cd.type.getTypeId) := by
  refine ⟨?_, ?_, ?_, ?_⟩
  · intro ast tables e h
    rcases executeInsert_spec ast tables with ⟨e', hpair⟩ | ⟨_, _, _, _, _, _, _, _, _, _, _,
      _, hpair⟩
    · rw [hpair]
    · rw [hpair] at h
      cases h
  · intro ast tables storage names cols0 e hl hr hv hrows hm hf
    have hany : (ast.values.any fun row => row.length ≠ names.length) = false := by
      rw [List.any_eq_false]
      intro row hrow
      simp [hrows row hrow]
    constructor
    · simp only [executeInsert, hl, hr, if_neg hv, hany, hm, hf]
      rfl
    · obtain ⟨hl0, hcells0, hsupp⟩ := makeInsertColumns_ok storage.structure_ names cols0 hm
      exact fillRows_err storage.structure_ names ast.values cols0 e hf hrows
        hl0.symm hsupp
  · intro ast tables n h
    rcases executeInsert_spec ast tables with ⟨e', hpair⟩ | ⟨storage, names, cols0, cols,
      storage2, hl, hr, hv, hrows, hm, hf, hi, hpair⟩
    · rw [hpair] at h
      cases h
    · rw [hpair] at h ⊢
      have hn := QueryResult.okMsg.inj h
      subst hn
      obtain ⟨hs2, hcount, hcols⟩ := insert_ok_spec storage _ storage2 hi
      subst hs2
      refine ⟨rfl, storage, buildInsertBlock names cols, hl, rfl, hcount, ?_⟩
      intro c hc
      rw [buildInsertBlock_columns] at hc
      obtain ⟨p, hp, hpc⟩ := List.mem_map.mp hc
      obtain ⟨hl0, hcells0, -⟩ := makeInsertColumns_ok storage.structure_ names cols0 hm
      have hmap := fillRows_ok_lengths storage.structure_ names ast.values cols0 cols hf
        hrows hl0.symm
      have hzero : cols0.map (fun c => c.cells.length + ast.values.length)
          = cols0.map (fun _ => ast.values.length) := by
        apply List.map_congr_left
        intro x hx
        rw [hcells0 x hx]
        simp
      have hlen : p.2.cells.length = ast.values.length := by
        have hpm : p.2 ∈ cols := (List.of_mem_zip hp).2
        have : p.2.cells.length ∈ cols.map (fun c => c.cells.length) :=
          List.mem_map_of_mem _ hpm
        rw [hmap, hzero] at this
        obtain ⟨y, -, hy⟩ := List.mem_map.mp this
        exact hy.symm
      rw [← hpc]
      exact hlen
  · intro s b s2 h
    obtain ⟨hs2, hcount, hcols⟩ := insert_ok_spec s b s2 h
    subst hs2
    exact ⟨rfl, hcount, hcols⟩

/-- C4 counterexample: as stated, the claim requires the storage engine to
reject every block whose names mismatch the schema, but a block carrying
schema column `a` twice (and `b` not at all) passes validation against the
two-column schema `t(a, b)` and is stored. -/
theorem insert_schema_mismatch_counterexample :
    MemoryStorage.insert ⟨tsAB, []⟩ blkDup = .ok ⟨tsAB, [blkDup]⟩
    ∧ blkDup.columnNames ≠ tsAB.columns.map (·.name)
    ∧ "b".data ∈ tsAB.columns.map (·.name)
    ∧ "b".data ∉ blkDup.columnNames := by
  refine ⟨by decide, by decide, by decide, by decide⟩

/-- C4 witness: part (1) at a concrete failing conversion, part (2) with
its hypotheses discharged there, and part (4) at a concrete successful
insert. -/
theorem insert_atomicity_witness :
    ((executeInsert ⟨"t".data, [], [[['3'], ['x']]]⟩ tablesAB).2 = tablesAB)
    ∧ (executeInsert ⟨"t".data, [], [[['3'], ['x']]]⟩ tablesAB
          = (.err (.valueConversionError ['x'] "b".data), tablesAB)
        ∧ ∃ row ∈ [[['3'], ['x']]], ∃ v ∈ row, ∃ n ∈ ["a".data, "b".data],
            DBError.valueConversionError ['x'] "b".data = .valueConversionError v n)
    ∧ (MemoryStorage.insert ⟨tsAB, []⟩ blkAB = .ok ⟨tsAB, [blkAB]⟩ →
        (⟨tsAB, [blkAB]⟩ : MemoryStorage).blocks = [] ++ [blkAB]
        ∧ blkAB.getColumnCount = tsAB.getColumnCount
        ∧ ∀ c ∈ blkAB.columns, ∃ cd, tsAB.getColumnByName c.name = .ok cd
            ∧ c.column.type.getTypeId = cd.type.getTypeId) :=
  ⟨insert_atomicity_spec.1 ⟨"t".data, [], [[['3'], ['x']]]⟩ tablesAB
      (.valueConversionError ['x'] "b".data) (by decide),
    insert_atomicity_spec.2.1 ⟨"t".data, [], [[['3'], ['x']]]⟩ tablesAB storAB
      ["a".data, "b".data] [⟨.int32, []⟩, ⟨.int32, []⟩]
      (.valueConversionError ['x'] "b".data)
      (by decide) (by decide) (by decide)
      (by intro row hrow; rw [List.mem_singleton] at hrow; subst hrow; rfl)
      (by decide) (by decide),
    fun hins => insert_atomicity_spec.2.2.2 ⟨tsAB, []⟩ blkAB ⟨tsAB, [blkAB]⟩ hins⟩

/-! ## Claim C1: COUNT(*) -/

theorem foldl_add_init (g : Block → Nat) : ∀ (bs : List Block) (k : Nat),
    bs.foldl (fun k b => k + g b) k = k + bs.foldl (fun k b => k + g b) 0 := by
  intro bs
  induction bs with
  | nil => intro k; simp
  | cons b rest ih =>
    intro k
    rw [List.foldl_cons, List.foldl_cons, ih (k + g b), ih (0 + g b)]
    omega

theorem totalRows_cons (b : Block) (bs : List Block) :
    totalRows (b :: bs) = b.getRowCount + totalRows bs := by
  simp only [totalRows, List.foldl_cons]
  rw [foldl_add_init Block.getRowCount bs (0 + b.getRowCount)]
  omega

theorem mapM_ok_forall2 {R : Block → Block → Prop} (f : Block → Except DBError Block) :
    ∀ (bs : List Block), (∀ b ∈ bs, ∃ nb, f b = .ok nb ∧ R b nb) →
    ∃ bs', bs.mapM f = .ok bs' ∧ List.Forall₂ R bs bs' := by
  intro bs
  induction bs with
  | nil => intro _; exact ⟨[], rfl, List.Forall₂.nil⟩
  | cons b rest ih =>
    intro h
    obtain ⟨nb, hnb, hR⟩ := h b (List.mem_cons_self b rest)
    obtain ⟨rest', hrest, hR2⟩ := ih (fun x hx => h x (List.mem_cons_of_mem b hx))
    refine ⟨nb :: rest', ?_, List.Forall₂.cons hR hR2⟩
    rw [List.mapM_cons, hnb, except_bind_ok, hrest, except_bind_ok]
    rfl

theorem forall2_totalRows {bs bs' : List Block}
    (h : List.Forall₂ (fun b nb => nb.getRowCount = b.getRowCount) bs bs') :
    totalRows bs' = totalRows bs ∧ (bs' = [] ↔ bs = []) := by
  induction h with
  | nil => exact ⟨rfl, Iff.rfl⟩
  | cons hR hrest ih =>
    refine ⟨?_, by simp⟩
    rw [totalRows_cons, totalRows_cons, hR, ih.1]

theorem projectBlock_single (b : Block) (n : Name) (c : ColumnWithName)
    (h : b.getColumnByName n = .ok c) :
    projectBlock b [n] = .ok (Block.empty.addColumn n c.column) := by
  simp [projectBlock, List.foldlM, h, except_bind_ok]

theorem singleCol_getRowCount (n : Name) (col : IColumn) :
    (Block.empty.addColumn n col).getRowCount = col.size := rfl

/-- The one-expression aggregate loop for `COUNT(*)`: the UInt64 one-cell
result column named `COUNT(*)` holding the total row count of the read
blocks. -/
theorem buildAggBlock_count_star (ts : TableStructure) (blocks : List Block) :
    buildAggBlock ts blocks [⟨['*'], [], .COUNT⟩] Block.empty []
      = .ok (Block.empty.addColumn "COUNT(*)".data ⟨.uint64, [.intC (totalRows blocks)]⟩,
          ["COUNT(*)".data]) := by
  have hagg : computeAggregateCell .UInt64 ⟨['*'], [], .COUNT⟩ blocks
      = .ok ("COUNT(*)".data, ⟨.uint64, [.intC (totalRows blocks)]⟩) := by
    simp only [computeAggregateCell, totalRows]
    rw [if_pos trivial, except_bind_ok]
    rfl
  simp only [buildAggBlock]
  rw [if_neg (by decide), if_pos (⟨trivial, trivial⟩ : True ∧ True), except_bind_ok]
  show (do
    let r ← computeAggregateCell DataTypeID.UInt64
      ⟨['*'], [], AggregateFunctionType.COUNT⟩ blocks
    Except.ok (Block.empty.addColumn
        (aggResultName ⟨['*'], [], AggregateFunctionType.COUNT⟩) r.2,
      [] ++ [aggResultName ⟨['*'], [], AggregateFunctionType.COUNT⟩])) = _
  rw [hagg, except_bind_ok]
  rfl

/-- C1 (amended): on a registered table with at least one stored block
whose first-schema-column is present in every block with the block's row
count, `SELECT COUNT(*)` succeeds with exactly one row whose single value
is the total number of stored rows; on a table with zero stored blocks
(zero inserted rows) the aggregate path is skipped and the result is a
successful but empty result — zero blocks and zero rows, not one row with
the value 0. -/
theorem count_star_result (ast : SelectAST) (tables : Tables) (storage : MemoryStorage)
    (cd0 : ColumnDefinition) (rest : List ColumnDefinition)
    (hcols : ast.columns = [⟨['*'], [], .COUNT⟩])
    (hsel : ast.select_all = false)
    (hl : lookupTable tables ast.table_name = some storage)
    (hschema : storage.structure_.columns = cd0 :: rest)
    (hhas : storage.structure_.hasColumn cd0.name = true)
    (hblocks : ∀ b ∈ storage.blocks, ∃ c, b.getColumnByName cd0.name = .ok c
        ∧ c.column.size = b.getRowCount) :
    (storage.blocks ≠ [] →
      executeSelect ast tables
        = .okRows [Block.empty.addColumn "COUNT(*)".data
            ⟨.uint64, [.intC (totalRows storage.blocks)]⟩] ["COUNT(*)".data]
      ∧ (executeSelect ast tables).rowCount = 1)
    ∧ (storage.blocks = [] →
      executeSelect ast tables = .okRows [] [['*']]
      ∧ (executeSelect ast tables).rowCount = 0) := by
  have hres : resolveSelectColumns storage.structure_ ast
      = .ok (true, [cd0.name]) := by
    simp only [resolveSelectColumns]
    rw [if_neg (by rw [hsel]; exact Bool.false_ne_true), hcols]
    simp only [resolveExprs]
    rw [if_pos (by decide), if_pos (by refine ⟨?_, ?_⟩ <;> trivial), hschema]
    rfl
  have hdedup : sortDedup [cd0.name] = [cd0.name] := rfl
  have hfind : List.find? (fun n => ¬ storage.structure_.hasColumn n) [cd0.name] = none := by
    simp [List.find?, hhas]
  constructor
  · intro hne
    obtain ⟨bs', hmapM, hfa2⟩ := mapM_ok_forall2
      (R := fun b nb => nb.getRowCount = b.getRowCount)
      (fun b => projectBlock b [cd0.name]) storage.blocks
      (by
        intro b hb
        obtain ⟨c, hc, hsize⟩ := hblocks b hb
        refine ⟨Block.empty.addColumn cd0.name c.column, projectBlock_single b cd0.name c hc, ?_⟩
        show (Block.empty.addColumn cd0.name c.column).getRowCount = b.getRowCount
        rw [singleCol_getRowCount, hsize])
    obtain ⟨htot, hemp⟩ := forall2_totalRows hfa2
    have hread : storage.read [cd0.name] = .ok bs' := by
      simp only [MemoryStorage.read, hfind]
      rw [if_neg hne]
      exact hmapM
    have hbs'ne : bs' ≠ [] := fun h => hne (hemp.mp h)
    have hexec : executeSelect ast tables
        = .okRows [Block.empty.addColumn "COUNT(*)".data
            ⟨.uint64, [.intC (totalRows storage.blocks)]⟩] ["COUNT(*)".data] := by
      simp only [executeSelect, hl, hres, hdedup, hread]
      rw [if_pos (by refine ⟨?_, hbs'ne⟩ <;> trivial), hcols, buildAggBlock_count_star, htot]
    refine ⟨hexec, ?_⟩
    rw [hexec]
    rfl
  · intro hemp
    have hread : storage.read [cd0.name] = .ok [] := by
      simp only [MemoryStorage.read, hfind]
      rw [if_pos hemp]
    have hexec : executeSelect ast tables = .okRows [] [['*']] := by
      simp only [executeSelect, hl, hres, hdedup, hread]
      rw [if_neg (by simp), hcols]
      rw [if_neg (by simp), hsel]
      rfl
    refine ⟨hexec, ?_⟩
    rw [hexec]
    rfl

/-- C1 counterexample: as stated, the claim requires one row with value 0
on a table with zero inserted rows, but `SELECT COUNT(*)` on the empty
table returns a successful result with zero blocks (zero rows), its
column-name list being the raw `*` token. -/
theorem count_star_empty_counterexample :
    executeSelect astCountStar tablesEmptyAB = .okRows [] [['*']]
    ∧ (executeSelect astCountStar tablesEmptyAB).rowCount = 0 := by
  constructor
  · decide
  · decide

/-- C1 witness: the amended theorem at the two-row table. -/
theorem count_star_witness :
    (storAB.blocks ≠ [] →
      executeSelect astCountStar tablesAB
        = .okRows [Block.empty.addColumn "COUNT(*)".data
            ⟨.uint64, [.intC (totalRows storAB.blocks)]⟩] ["COUNT(*)".data]
      ∧ (executeSelect astCountStar tablesAB).rowCount = 1)
    ∧ totalRows storAB.blocks = 2 :=
  ⟨(count_star_result astCountStar tablesAB storAB ⟨"a".data, .int32⟩ [⟨"b".data, .int32⟩]
      (by decide) (by decide) (by decide) (by decide) (by decide)
      (by
        intro b hb
        have hb' : b = blkAB := List.eq_of_mem_singleton (a := b) (b := blkAB) hb
        subst hb'
        exact ⟨⟨"a".data, colA⟩, by decide, by decide⟩)).1,
    by decide⟩


/-! ## Claim C2: projection column layout and result names -/

/-- The projection fold of `MemoryStorage::read` appends exactly the
requested names, in fold order, to the accumulator block's ordered column
list. -/
theorem projectBlock_names_aux (b : Block) :
    ∀ (names : List Name) (acc nb : Block),
      names.foldlM
        (fun nb col_name => do
          let c ← b.getColumnByName col_name
          .ok (nb.addColumn col_name c.column)) acc = .ok nb →
      nb.columnNames = acc.columnNames ++ names := by
  intro names
  induction names with
  | nil =>
    intro acc nb h
    have h2 : (Except.ok acc : Except DBError Block) = Except.ok nb := h
    have h3 : acc = nb := Except.ok.inj h2
    subst h3
    simp
  | cons n ns ih =>
    intro acc nb h
    rw [List.foldlM_cons] at h
    beta_reduce at h
    cases hc : b.getColumnByName n with
    | error e =>
      rw [hc, except_bind_error, except_bind_error] at h
      exact absurd h (by simp)
    | ok c =>
      rw [hc, except_bind_ok, except_bind_ok] at h
      have h4 := ih (acc.addColumn n c.column) nb h
      rw [h4, addColumn_columnNames]
      simp

/-- When every requested name resolves in the block, the projection fold
succeeds. -/
theorem projectBlock_ok_aux (b : Block) :
    ∀ (names : List Name) (acc : Block),
      (∀ n ∈ names, ∃ c, b.getColumnByName n = .ok c) →
      ∃ nb, names.foldlM
        (fun nb col_name => do
          let c ← b.getColumnByName col_name
          .ok (nb.addColumn col_name c.column)) acc = .ok nb := by
  intro names
  induction names with
  | nil => intro acc _; exact ⟨acc, rfl⟩
  | cons n ns ih =>
    intro acc h
    obtain ⟨c, hc⟩ := h n (List.mem_cons_self n ns)
    obtain ⟨nb, hnb⟩ := ih (acc.addColumn n c.column)
      (fun m hm => h m (List.mem_cons_of_mem n hm))
    refine ⟨nb, ?_⟩
    rw [List.foldlM_cons]
    beta_reduce
    rw [hc, except_bind_ok, except_bind_ok]
    exact hnb

theorem forall2_mem_right {P : Block → Prop} :
    ∀ {bs bs2 : List Block}, List.Forall₂ (fun _ nb => P nb) bs bs2 → ∀ nb ∈ bs2, P nb := by
  intro bs bs2 h
  induction h with
  | nil => intro nb hnb; cases hnb
  | cons hR hrest ih =>
    intro nb hnb
    cases hnb with
    | head => exact hR
    | tail _ h2 => exact ih nb h2

/-- C2 (amended): for a non-aggregate SELECT (no LIMIT) over a registered
table whose resolved column names all exist in every stored block, the
result's column-name list is the requested names (or their aliases) in
request order, but each returned block's ordered column list is the
SORTED, DEDUPLICATED sequence of the resolved names — the request order is
not preserved inside the blocks. -/
theorem projection_columns_spec (ast : SelectAST) (tables : Tables)
    (storage : MemoryStorage) (names0 : List Name)
    (hl : lookupTable tables ast.table_name = some storage)
    (hres : resolveSelectColumns storage.structure_ ast = .ok (false, names0))
    (hfind : (sortDedup names0).find? (fun n => ¬ storage.structure_.hasColumn n) = none)
    (hcols : ∀ b ∈ storage.blocks, ∀ n ∈ sortDedup names0, ∃ c, b.getColumnByName n = .ok c)
    (hlim : ast.limit = 0) :
    ∃ rblocks, storage.read (sortDedup names0) = .ok rblocks
      ∧ executeSelect ast tables = .okRows rblocks
          (if ast.select_all then storage.structure_.columns.map (fun cd => cd.name)
           else ast.columns.map (fun ce => if ce.alias_ ≠ [] then ce.alias_ else ce.column))
      ∧ ∀ nb ∈ rblocks, nb.columnNames = sortDedup names0 := by
  by_cases hbe : storage.blocks = []
  · have hread : storage.read (sortDedup names0) = .ok [] := by
      simp only [MemoryStorage.read, hfind]
      rw [if_pos hbe]
    refine ⟨[], hread, ?_, ?_⟩
    · simp only [executeSelect, hl, hres, hread]
      rw [if_neg (by simp)]
      rw [if_neg (by simp [hlim])]
    · intro nb hnb
      cases hnb
  · have hall : ∀ b ∈ storage.blocks, ∃ nb,
        projectBlock b (sortDedup names0) = .ok nb
        ∧ nb.columnNames = sortDedup names0 := by
      intro b hb
      obtain ⟨nb, hnb⟩ := projectBlock_ok_aux b (sortDedup names0) Block.empty (hcols b hb)
      refine ⟨nb, hnb, ?_⟩
      have h4 := projectBlock_names_aux b (sortDedup names0) Block.empty nb hnb
      simpa using h4
    obtain ⟨rblocks, hmapM, hfa2⟩ := mapM_ok_forall2
      (R := fun _ nb => nb.columnNames = sortDedup names0)
      (fun b => projectBlock b (sortDedup names0)) storage.blocks hall
    have hread : storage.read (sortDedup names0) = .ok rblocks := by
      simp only [MemoryStorage.read, hfind]
      rw [if_neg hbe]
      exact hmapM
    refine ⟨rblocks, hread, ?_, forall2_mem_right hfa2⟩
    simp only [executeSelect, hl, hres, hread]
    rw [if_neg (by simp)]
    rw [if_neg (by simp [hlim])]

/-- C2 counterexample: `SELECT b, a FROM t` reports the result names in
request order `b, a`, but the returned block holds its columns in sorted
order `a, b`: the claim that each returned block contains the requested
columns in request order fails. -/
theorem projection_order_counterexample :
    executeSelect astBA tablesAB = .okRows [blkAB] ["b".data, "a".data]
    ∧ blkAB.columnNames = ["a".data, "b".data]
    ∧ blkAB.columnNames ≠ ["b".data, "a".data] := by
  refine ⟨by decide, by decide, by decide⟩

/-- C2 witness: the amended theorem at `SELECT b, a FROM t` over the
two-column table. -/
theorem projection_columns_witness :
    ∃ rblocks, storAB.read (sortDedup ["b".data, "a".data]) = .ok rblocks
      ∧ executeSelect astBA tablesAB = .okRows rblocks
          (if astBA.select_all then storAB.structure_.columns.map (fun cd => cd.name)
           else astBA.columns.map (fun ce => if ce.alias_ ≠ [] then ce.alias_ else ce.column))
      ∧ ∀ nb ∈ rblocks, nb.columnNames = sortDedup ["b".data, "a".data] :=
  projection_columns_spec astBA tablesAB storAB ["b".data, "a".data]
    (by decide) (by decide) (by decide)
    (by
      intro b hb
      have hb2 : b = blkAB := List.eq_of_mem_singleton (a := b) (b := blkAB) hb
      subst hb2
      intro n hn
      have hsd : sortDedup ["b".data, "a".data] = ["a".data, "b".data] := by decide
      rw [hsd] at hn
      cases hn with
      | head => exact ⟨⟨"a".data, colA⟩, by decide⟩
      | tail _ h2 =>
        cases h2 with
        | head => exact ⟨⟨"b".data, colB⟩, by decide⟩
        | tail _ h3 => cases h3)
    (by decide)


/-! ## Claim C5: LIMIT keeps the first n rows in scan order -/

/-- The popBack loop shortens a column's cell list to its first `r`
entries whenever the fuel covers the iteration count. -/
theorem popLoop_take (r : Nat) : ∀ (fuel : Nat) (l : List Cell), l.length ≤ fuel + r →
    popLoop fuel l r = l.take r := by
  intro fuel
  induction fuel with
  | zero =>
    intro l h
    simp only [popLoop]
    exact (List.take_of_length_le (by omega)).symm
  | succ fuel ih =>
    intro l h
    simp only [popLoop]
    by_cases hlt : r < l.length
    · rw [if_pos hlt, ih l.dropLast (by rw [List.length_dropLast]; omega)]
      rw [List.dropLast_eq_take, List.take_take]
      have hmin : min r (l.length - 1) = r := by omega
      rw [hmin]
    · rw [if_neg hlt]
      exact (List.take_of_length_le (by omega)).symm

theorem popToLimit_eq_take (l : List Cell) (r : Nat) : popToLimit l r = l.take r :=
  popLoop_take r l.length l (by omega)

theorem truncBlock_columns_aux (r : Nat) :
    ∀ (l : List ColumnWithName) (b : Block),
    (l.foldl
        (fun nb c => nb.addColumn c.name { c.column with cells := popToLimit c.column.cells r })
        b).columns
      = b.columns ++ l.map
          (fun c => (⟨c.name, { c.column with cells := popToLimit c.column.cells r }⟩
            : ColumnWithName)) := by
  intro l
  induction l with
  | nil => intro b; simp
  | cons c rest ih =>
    intro b
    rw [List.foldl_cons, ih]
    simp [Block.addColumn, List.append_assoc]

/-- The boundary block rebuilt by the LIMIT loop: same column names, each
cell list cut to its first `r` entries. -/
theorem truncBlock_columns (b : Block) (r : Nat) :
    (truncBlock b r).columns
      = b.columns.map (fun c => (⟨c.name, { c.column with cells := c.column.cells.take r }⟩
          : ColumnWithName)) := by
  rw [truncBlock, truncBlock_columns_aux]
  simp [popToLimit_eq_take, Block.empty]

theorem truncBlock_getRowCount (b : Block) (r : Nat) (hc : b.columns ≠ [])
    (hr : ∀ c ∈ b.columns, r ≤ c.column.size) :
    (truncBlock b r).getRowCount = r := by
  cases hcols : b.columns with
  | nil => exact absurd hcols hc
  | cons c rest =>
    have h1 : (truncBlock b r).columns
        = (⟨c.name, { c.column with cells := c.column.cells.take r }⟩ : ColumnWithName)
          :: rest.map (fun c => (⟨c.name, { c.column with cells := c.column.cells.take r }⟩
            : ColumnWithName)) := by
      rw [truncBlock_columns, hcols, List.map_cons]
    have h2 := hr c (by rw [hcols]; exact List.mem_cons_self c rest)
    simp only [IColumn.size] at h2
    simp [Block.getRowCount, h1, IColumn.size]
    omega

theorem columnSlice_cons (b : Block) (bs : List Block) (j : Nat) :
    columnSlice (b :: bs) j
      = (match b.columns.get? j with | some c => c.column.cells | none => [])
        ++ columnSlice bs j := rfl

theorem columnSlice_nil (k j : Nat) (hj : k ≤ j) :
    ∀ (bs : List Block), (∀ b ∈ bs, b.columns.length = k) → columnSlice bs j = [] := by
  intro bs
  induction bs with
  | nil => intro _; rfl
  | cons b rest ih =>
    intro h
    rw [columnSlice_cons, ih (fun x hx => h x (List.mem_cons_of_mem b hx))]
    have hget : b.columns.get? j = none :=
      List.get?_len_le (by rw [h b (List.mem_cons_self b rest)]; omega)
    rw [hget]
    rfl

/-- The LIMIT loop of `executeSelect`, on blocks of uniform column count
whose columns all match the block row count: when the quota is strictly
below the total, the result holds exactly `n` rows and every column slice
is the first `n` cells of the untruncated slice, in block scan order. -/
theorem limitBlocks_spec (k : Nat) :
    ∀ (bs : List Block) (n : Nat),
    (∀ b ∈ bs, (∀ c ∈ b.columns, c.column.size = b.getRowCount) ∧ b.columns.length = k) →
    n < totalRows bs →
    totalRows (limitBlocks bs n) = n
    ∧ ∀ j, columnSlice (limitBlocks bs n) j = (columnSlice bs j).take n := by
  intro bs
  induction bs with
  | nil =>
    intro n h hm
    exact absurd hm (by simp [totalRows])
  | cons b rest ih =>
    intro n h hm
    have hb := h b (List.mem_cons_self b rest)
    have hrest := fun x hx => h x (List.mem_cons_of_mem b hx)
    rw [totalRows_cons] at hm
    simp only [limitBlocks]
    by_cases hle : b.getRowCount ≤ n
    · rw [if_pos hle]
      have hm2 : n - b.getRowCount < totalRows rest := by omega
      obtain ⟨ht, hs⟩ := ih (n - b.getRowCount) hrest hm2
      refine ⟨by rw [totalRows_cons, ht]; omega, ?_⟩
      intro j
      rw [columnSlice_cons, columnSlice_cons, hs j]
      by_cases hjk : j < k
      · obtain ⟨c, hc⟩ : ∃ c, b.columns.get? j = some c := by
          have hlen : j < b.columns.length := by rw [hb.2]; omega
          exact ⟨b.columns.get ⟨j, hlen⟩, List.get?_eq_get hlen⟩
        have hsz := hb.1 c (List.get?_mem hc)
        have hlen2 : c.column.cells.length = b.getRowCount := by rw [← hsz]; rfl
        rw [hc]
        simp only []
        have htk : c.column.cells.take n = c.column.cells :=
          List.take_of_length_le (by rw [hlen2]; omega)
        rw [List.take_append_eq_append_take, hlen2, htk]
      · have hget : b.columns.get? j = none := List.get?_len_le (by rw [hb.2]; omega)
        have h0 : columnSlice rest j = []
          := columnSlice_nil k j (by omega) rest (fun x hx => (hrest x hx).2)
        rw [hget, h0]
        simp
    · rw [if_neg hle]
      have hn : n < b.getRowCount := by omega
      have hcne : b.columns ≠ [] := by
        intro h0
        have hz : b.getRowCount = 0 := by simp [Block.getRowCount, h0]
        omega
      have hr : ∀ c ∈ b.columns, n ≤ c.column.size := fun c hcin => by
        rw [hb.1 c hcin]
        omega
      refine ⟨?_, ?_⟩
      · rw [totalRows_cons, truncBlock_getRowCount b n hcne hr]
        simp [totalRows]
      · intro j
        rw [columnSlice_cons, columnSlice_cons]
        have htc : (truncBlock b n).columns.get? j
            = (b.columns.get? j).map
                (fun c => (⟨c.name, { c.column with cells := c.column.cells.take n }⟩
                  : ColumnWithName)) := by
          rw [truncBlock_columns, List.get?_map]
        by_cases hjk : j < k
        · obtain ⟨c, hc⟩ : ∃ c, b.columns.get? j = some c := by
            have hlen : j < b.columns.length := by rw [hb.2]; omega
            exact ⟨b.columns.get ⟨j, hlen⟩, List.get?_eq_get hlen⟩
          have hsz := hb.1 c (List.get?_mem hc)
          have hlen2 : c.column.cells.length = b.getRowCount := by rw [← hsz]; rfl
          rw [hc, Option.map_some'] at htc
          rw [htc, hc]
          simp only []
          have hz : n - c.column.cells.length = 0 := by rw [hlen2]; omega
          rw [List.take_append_eq_append_take, hz]
          simp [columnSlice]
        · have hget : b.columns.get? j = none := List.get?_len_le (by rw [hb.2]; omega)
          rw [hget, Option.map_none'] at htc
          rw [htc, hget]
          have h0 : columnSlice rest j = []
            := columnSlice_nil k j (by omega) rest (fun x hx => (hrest x hx).2)
          rw [h0]
          simp [columnSlice]

/-- C5: for a non-aggregate SELECT with `LIMIT n`, `0 < n`, over a
registered table whose storage read yields blocks of uniform column count
with per-column sizes matching each block's row count and more than `n`
total rows, the result is the LIMIT-truncated block list: it holds exactly
`n` rows, and every column slice equals the first `n` cells of the
corresponding slice of the read blocks, in storage scan order (whole
blocks under the quota kept, the straddling block cut to the remainder,
later blocks dropped). -/
theorem limit_rows_spec (ast : SelectAST) (tables : Tables) (storage : MemoryStorage)
    (names0 : List Name) (rblocks : List Block) (k : Nat)
    (hl : lookupTable tables ast.table_name = some storage)
    (hres : resolveSelectColumns storage.structure_ ast = .ok (false, names0))
    (hread : storage.read (sortDedup names0) = .ok rblocks)
    (huni : ∀ b ∈ rblocks,
      (∀ c ∈ b.columns, c.column.size = b.getRowCount) ∧ b.columns.length = k)
    (hpos : 0 < ast.limit) (hm : ast.limit < totalRows rblocks) :
    executeSelect ast tables = .okRows (limitBlocks rblocks ast.limit)
        (if ast.select_all then storage.structure_.columns.map (fun cd => cd.name)
         else ast.columns.map (fun ce => if ce.alias_ ≠ [] then ce.alias_ else ce.column))
    ∧ totalRows (limitBlocks rblocks ast.limit) = ast.limit
    ∧ ∀ j, columnSlice (limitBlocks rblocks ast.limit) j
        = (columnSlice rblocks j).take ast.limit := by
  have hne : rblocks ≠ [] := by
    intro h0
    rw [h0] at hm
    simp only [totalRows, List.foldl_nil] at hm
    omega
  obtain ⟨ht, hs⟩ := limitBlocks_spec k rblocks ast.limit huni hm
  refine ⟨?_, ht, hs⟩
  simp only [executeSelect, hl, hres, hread]
  rw [if_neg (by simp)]
  rw [if_pos ⟨hpos, hne⟩, if_pos hm]

/-- C5 witness: `SELECT a FROM t LIMIT 3` over two stored two-row blocks
(four rows total). -/
theorem limit_rows_witness :
    executeSelect astALim3 tablesAB2
      = .okRows (limitBlocks [Block.empty.addColumn "a".data colA,
            Block.empty.addColumn "a".data ⟨.int32, [.intC 3, .intC 4]⟩] astALim3.limit)
        (if astALim3.select_all then storAB2.structure_.columns.map (fun cd => cd.name)
         else astALim3.columns.map (fun ce => if ce.alias_ ≠ [] then ce.alias_ else ce.column))
    ∧ totalRows (limitBlocks [Block.empty.addColumn "a".data colA,
          Block.empty.addColumn "a".data ⟨.int32, [.intC 3, .intC 4]⟩] astALim3.limit)
        = astALim3.limit
    ∧ ∀ j, columnSlice (limitBlocks [Block.empty.addColumn "a".data colA,
          Block.empty.addColumn "a".data ⟨.int32, [.intC 3, .intC 4]⟩] astALim3.limit) j
        = (columnSlice [Block.empty.addColumn "a".data colA,
            Block.empty.addColumn "a".data ⟨.int32, [.intC 3, .intC 4]⟩] j).take astALim3.limit :=
  limit_rows_spec astALim3 tablesAB2 storAB2 ["a".data]
    [Block.empty.addColumn "a".data colA,
      Block.empty.addColumn "a".data ⟨.int32, [.intC 3, .intC 4]⟩] 1
    (by decide) (by decide) (by decide) (by decide) (by decide) (by decide)

end LightOlaDB
